import Mathlib

/-!
Shallow embedding of the converged RadioChat server variant
(`src/server.ts`, second document: WebSocket handlers over a Prisma store)
and proofs about its room membership and message fan-out engine.

Modelling conventions:
* The Prisma store is embedded as lists in table order (`Db`); `findFirst`
  and `findUnique` become `List.find?` over those lists.
* WebSocket connections are identified by a numeric session id (`sid`);
  the `connectedUsers` map becomes the `sessions` list keyed by `sid`,
  and the `activeRooms` map becomes an association list keyed by room id.
* Side effects (direct sends, broadcast deliveries, message persistence)
  are collected in an `Out` trace in program order; all connections are
  treated as open (`readyState === OPEN`).
* Wall-clock times, freshly generated ids/keys and the success of
  store/object-storage writes are passed as explicit parameters.
-/

namespace RadioChat

/-- A row of the `users` table (only fields the handlers read). -/
structure DbUser where
  id : String
  username : String
  deriving DecidableEq, Repr

/-- A row of the `rooms` table. `deletedAt` is the soft-delete marker. -/
structure DbRoom where
  id : String
  name : String
  displayName : String
  roomType : String
  encryptedKey : String
  creatorId : String
  deletedAt : Option Nat
  deriving DecidableEq, Repr

/-- A row of the `room_members` table (composite key room x user). -/
structure DbMember where
  roomId : String
  userId : String
  deriving DecidableEq, Repr

/-- A row of the `room_invites` table. -/
structure DbInvite where
  inviteId : String
  code : String
  roomId : String
  createdById : String
  expiresAt : Nat
  usedById : Option String
  usedAt : Option Nat
  deriving DecidableEq, Repr

/-- A row of the `messages` table. -/
structure DbMessage where
  id : String
  roomId : String
  senderId : String
  ciphertext : String
  messageType : String
  imageUrl : Option String
  createdAt : Nat
  deriving DecidableEq, Repr

/-- The persistent store: tables in insertion (table) order. -/
structure Db where
  users : List DbUser
  rooms : List DbRoom
  members : List DbMember
  invites : List DbInvite
  messages : List DbMessage
  deriving DecidableEq, Repr

/-- A `ConnectedUser`: one entry of the `connectedUsers` map, keyed by the
connection (modelled by `sid`). -/
structure Session where
  sid : Nat
  userId : String
  username : String
  currentRoomId : Option String
  isAuthenticated : Bool
  deriving DecidableEq, Repr

/-- One element of an `ActiveRoom`'s `users` array: a reference to a
connected user (its immutable identity fields plus the connection id). -/
structure RosterEntry where
  sid : Nat
  userId : String
  username : String
  deriving DecidableEq, Repr

/-- An `ActiveRoom`: the in-memory liveness cache for one room. -/
structure ActiveRoom where
  id : String
  name : String
  displayName : String
  roomType : String
  encryptedKey : String
  users : List RosterEntry
  deriving DecidableEq, Repr

/-- The whole server state: store plus the two in-memory registries. -/
structure ServerState where
  db : Db
  sessions : List Session
  activeRooms : List ActiveRoom
  deriving DecidableEq, Repr

/-- The errors the handlers report via `sendError` (one constructor per
distinct `sendError` call site reachable from the modelled handlers). -/
inductive Err where
  | roomIdOrNameRequired
  | roomNotFound
  | accessDenied
  | notInRoom
  | contentRequired
  | imageUploadFailed
  | invalidFormat
  | nameRequired
  | roomTypeInvalid
  | nameTaken
  | renameFieldsRequired
  | notOwnerRename
  | roomIdRequired
  | notOwnerDelete
  | codeRequired
  | invalidCode
  | inviteExpired
  | inviteAlreadyUsed
  | roomGone
  | alreadyMember
  deriving DecidableEq, Repr

/-- A message view as placed in `roomJoined.messages` / `message` payloads. -/
structure MsgView where
  id : String
  username : String
  ciphertext : String
  timestamp : Nat
  messageType : String
  imageUrl : Option String
  deriving DecidableEq, Repr

/-- One formatted room of a `roomsList` reply. -/
structure RoomInfo where
  roomId : String
  name : String
  displayName : String
  roomType : String
  memberCount : Nat
  isJoined : Bool
  deriving DecidableEq, Repr

/-- Server-to-client events (payload fields the claims depend on). -/
inductive SMsg where
  | errorMsg (e : Err)
  | roomJoined (roomId roomName : String) (history : List MsgView)
      (online : List (String × String))
  | userJoined (username userId : String)
  | userLeft (username userId : String)
  | message (m : MsgView)
  | roomCreated (roomId roomName : String)
  | roomsList (pub priv : List RoomInfo)
  | roomRenamed (roomId newName displayName : String)
  | roomDeleted (roomId : String)
  deriving DecidableEq, Repr

/-- One observable effect of a handler, in program order. -/
inductive Out where
  | send (sid : Nat) (m : SMsg)
  | deliver (rid : String) (sid : Nat) (m : SMsg)
  | persist (m : DbMessage)
  deriving DecidableEq, Repr

/-- `connectedUsers.get(ws)`. -/
def findSession (sl : List Session) (sid : Nat) : Option Session :=
  sl.find? (fun v => v.sid == sid)

/-- `user.currentRoomId = r` (mutation of the shared session object). -/
def setCurrentRoom (sl : List Session) (sid : Nat) (r : Option String) :
    List Session :=
  sl.map (fun v => if v.sid == sid then { v with currentRoomId := r } else v)

/-- `activeRooms.get(rid)`. -/
def getActive (ars : List ActiveRoom) (rid : String) : Option ActiveRoom :=
  ars.find? (fun ar => ar.id == rid)

/-- `activeRooms.set(ar.id, ar)`: replace the entry with that key, or
append a new one. -/
def putActive (ars : List ActiveRoom) (ar : ActiveRoom) : List ActiveRoom :=
  if (getActive ars ar.id).isSome then
    ars.map (fun x => if x.id == ar.id then ar else x)
  else ars ++ [ar]

/-- `activeRooms.delete(rid)`. -/
def dropActive (ars : List ActiveRoom) (rid : String) : List ActiveRoom :=
  ars.filter (fun x => x.id != rid)

/-- JS truthiness of an optional string (absent or empty is falsy). -/
def optFalsy (o : Option String) : Bool :=
  o.getD "" == ""

/-- `o || d` for an optional string field. -/
def optOr (o : Option String) (d : String) : String :=
  if optFalsy o then d else o.getD d

/-- `broadcastToRoom`: no-op when the room is not active, otherwise a
delivery to every roster member except the excluded connection. -/
def broadcastToRoom (ars : List ActiveRoom) (rid : String) (m : SMsg)
    (excl : Option Nat) : List Out :=
  match getActive ars rid with
  | none => []
  | some ar =>
      (ar.users.filter (fun e => some e.sid != excl)).map
        (fun e => Out.deliver rid e.sid m)

/-- The sender lookup of the `include: { sender: ... }` clause. -/
def senderName (db : Db) (uid : String) : String :=
  match db.users.find? (fun w => w.id == uid) with
  | some w => w.username
  | none => ""

/-- View of a stored message as sent in history payloads. -/
def msgView (db : Db) (m : DbMessage) : MsgView :=
  { id := m.id, username := senderName db m.senderId,
    ciphertext := m.ciphertext, timestamp := m.createdAt,
    messageType := m.messageType, imageUrl := m.imageUrl }

/-- The history fetch of the join queries: messages of the room ordered by
`createdAt` descending (reverse table order), `take: 50`, then reversed
back to chronological order for the payload. -/
def roomHistory (db : Db) (rid : String) : List MsgView :=
  (((db.messages.filter (fun m => m.roomId == rid)).reverse.take 50).reverse).map
    (msgView db)

/-- One branch of the join query's `OR` array: a present field filters on
its column, an absent field contributes the empty Prisma filter, which
matches every row. -/
def optFilter (field : String) (o : Option String) : Bool :=
  match o with
  | some v => field == v
  | none => true

/-- The `where` clause of `handleJoinRoom`'s `findFirst`. -/
def joinWhere (roomId roomName : Option String) (r : DbRoom) : Bool :=
  (optFilter r.id roomId || optFilter r.name roomName) && r.deletedAt == none

/-- `prisma.room.findFirst` of `handleJoinRoom` (first row in table order). -/
def findJoinRoom (db : Db) (roomId roomName : Option String) : Option DbRoom :=
  db.rooms.find? (joinWhere roomId roomName)

/-- `prisma.roomMember.upsert` keyed on (roomId, userId). -/
def upsertMember (db : Db) (rid uid : String) : Db :=
  if db.members.any (fun m => m.roomId == rid && m.userId == uid) then db
  else { db with members := db.members ++ [{ roomId := rid, userId := uid }] }

/-- `handleLeaveRoom(user, { roomId })`: filter the user out of that
room's roster (comparison by `userId`), broadcast `userLeft` to the
remaining roster, evict the active room if its roster became empty, and
finally clear `currentRoomId` unconditionally. A missing `roomId`
returns early without clearing `currentRoomId`. -/
def handleLeaveRoom (s : ServerState) (sid : Nat) (roomId : Option String) :
    ServerState × List Out :=
  match findSession s.sessions sid with
  | none => (s, [])
  | some u =>
    match roomId with
    | none => (s, [])
    | some rid =>
      match getActive s.activeRooms rid with
      | none =>
          ({ s with sessions := setCurrentRoom s.sessions sid none }, [])
      | some ar =>
          let users2 := ar.users.filter (fun e => e.userId != u.userId)
          let ars1 := putActive s.activeRooms { ar with users := users2 }
          let outs := broadcastToRoom ars1 rid
            (SMsg.userLeft u.username u.userId) none
          let ars2 := if users2.isEmpty then dropActive ars1 rid else ars1
          ({ s with sessions := setCurrentRoom s.sessions sid none,
                    activeRooms := ars2 }, outs)

/-- `handleDisconnect(user)`: leave the current room, if any. -/
def handleDisconnect (s : ServerState) (sid : Nat) : ServerState × List Out :=
  match findSession s.sessions sid with
  | none => (s, [])
  | some u =>
    match u.currentRoomId with
    | some rid => handleLeaveRoom s sid (some rid)
    | none => (s, [])

/-- The `ws.on("close")` handler: run disconnect effects, then delete the
session from `connectedUsers`. -/
def onClose (s : ServerState) (sid : Nat) : ServerState × List Out :=
  match findSession s.sessions sid with
  | none => (s, [])
  | some _ =>
    let (s1, outs) := handleDisconnect s sid
    ({ s1 with sessions := s1.sessions.filter (fun v => v.sid != sid) }, outs)

/-- The repeated `// Create or get active room` block of the two join
paths: return the cached `ActiveRoom` or hydrate a fresh, empty-rostered
one from the room row. -/
def activateRoom (ars : List ActiveRoom) (room : DbRoom) : ActiveRoom :=
  match getActive ars room.id with
  | some ar0 => ar0
  | none =>
      { id := room.id, name := room.name, displayName := room.displayName,
        roomType := room.roomType, encryptedKey := room.encryptedKey,
        users := [] }

/-- The repeated `// Add user to active room` block: push the user unless
an entry with the same user id is already on the roster. -/
def addToRoster (ar : ActiveRoom) (sid : Nat) (uid uname : String) : ActiveRoom :=
  if ar.users.any (fun e => e.userId == uid) then ar
  else { ar with users := ar.users ++ [{ sid := sid, userId := uid, username := uname }] }

/-- `handleJoinRoom(user, { roomId?, roomName? })`. -/
def handleJoinRoom (s : ServerState) (sid : Nat)
    (roomId roomName : Option String) : ServerState × List Out :=
  match findSession s.sessions sid with
  | none => (s, [])
  | some u =>
    if roomId == none && roomName == none then
      (s, [Out.send sid (SMsg.errorMsg Err.roomIdOrNameRequired)])
    else
      match findJoinRoom s.db roomId roomName with
      | none => (s, [Out.send sid (SMsg.errorMsg Err.roomNotFound)])
      | some room =>
        let myMembers := s.db.members.filter
          (fun m => m.roomId == room.id && m.userId == u.userId)
        if room.roomType == "private" && myMembers.isEmpty then
          (s, [Out.send sid (SMsg.errorMsg Err.accessDenied)])
        else
          -- history snapshot comes from the same query as the room row
          let history := roomHistory s.db room.id
          let s1out :=
            match u.currentRoomId with
            | some cur => handleLeaveRoom s sid (some cur)
            | none => (s, [])
          let s1 := s1out.1
          let db2 := upsertMember s1.db room.id u.userId
          let ar2 := addToRoster (activateRoom s1.activeRooms room) sid
            u.userId u.username
          let ars2 := putActive s1.activeRooms ar2
          let sess2 := setCurrentRoom s1.sessions sid (some room.id)
          let s2 : ServerState :=
            { db := db2, sessions := sess2, activeRooms := ars2 }
          let online := ar2.users.map (fun e => (e.username, e.userId))
          let bc := broadcastToRoom ars2 room.id
            (SMsg.userJoined u.username u.userId) (some sid)
          (s2, s1out.2 ++
            [Out.send sid (SMsg.roomJoined room.id room.name history online)] ++ bc)

/-- The live `message` payload built from the freshly persisted row and
the sender's session username. -/
def liveView (uname : String) (m : DbMessage) : MsgView :=
  { id := m.id, username := uname, ciphertext := m.ciphertext,
    timestamp := m.createdAt, messageType := m.messageType,
    imageUrl := m.imageUrl }

/-- `handleSendMessage(user, { roomId, ciphertext, messageType?, imageData? })`.
`uploadResult` abstracts the image size validation plus the object-storage
upload (`none` means either step failed); `persistOk` abstracts the success
of `prisma.message.create` (a rejection is caught by the dispatch loop's
`catch`, which replies with the generic invalid-format error). -/
def handleSendMessage (s : ServerState) (sid : Nat) (roomId ciphertext : String)
    (messageType imageData uploadResult : Option String) (persistOk : Bool)
    (freshId : String) (now : Nat) : ServerState × List Out :=
  match findSession s.sessions sid with
  | none => (s, [])
  | some u =>
    if u.currentRoomId != some roomId then
      (s, [Out.send sid (SMsg.errorMsg Err.notInRoom)])
    else if ciphertext == "" && optFalsy imageData then
      (s, [Out.send sid (SMsg.errorMsg Err.contentRequired)])
    else
      let imgStep : Except Err (Option String) :=
        if messageType == some "image" && !(optFalsy imageData) then
          match uploadResult with
          | none => Except.error Err.imageUploadFailed
          | some url => Except.ok (some url)
        else Except.ok none
      match imgStep with
      | Except.error e => (s, [Out.send sid (SMsg.errorMsg e)])
      | Except.ok imageUrl =>
        if persistOk then
          let m : DbMessage :=
            { id := freshId, roomId := roomId, senderId := u.userId,
              ciphertext := ciphertext, messageType := optOr messageType "text",
              imageUrl := imageUrl, createdAt := now }
          let s2 : ServerState :=
            { s with db := { s.db with messages := s.db.messages ++ [m] } }
          let view := liveView u.username m
          (s2, Out.persist m ::
            broadcastToRoom s2.activeRooms roomId (SMsg.message view) none)
        else
          (s, [Out.send sid (SMsg.errorMsg Err.invalidFormat)])

/-- The row a plain text `sendMessage` persists (no image, default
message type). -/
def textMsg (fid rid uid ct : String) (now2 : Nat) : DbMessage :=
  { id := fid, roomId := rid, senderId := uid, ciphertext := ct,
    messageType := "text", imageUrl := none, createdAt := now2 }

/-- `handleRenameRoom(user, { roomId, newName })`. Note that the collision
check (`findUnique` on `name`) does not restrict to non-deleted rooms. -/
def handleRenameRoom (s : ServerState) (sid : Nat) (roomId newName : String) :
    ServerState × List Out :=
  match findSession s.sessions sid with
  | none => (s, [])
  | some u =>
    if roomId == "" || newName == "" then
      (s, [Out.send sid (SMsg.errorMsg Err.renameFieldsRequired)])
    else
      match s.db.rooms.find? (fun r => r.id == roomId) with
      | none => (s, [Out.send sid (SMsg.errorMsg Err.roomNotFound)])
      | some room =>
        if room.creatorId != u.userId then
          (s, [Out.send sid (SMsg.errorMsg Err.notOwnerRename)])
        else
          let conflict :=
            match s.db.rooms.find? (fun r => r.name == newName) with
            | some ex => ex.id != roomId
            | none => false
          if conflict then (s, [Out.send sid (SMsg.errorMsg Err.nameTaken)])
          else
            let dn := if room.displayName.startsWith "#" then "#" ++ newName
                      else newName
            let rooms2 := s.db.rooms.map (fun r =>
              if r.id == roomId then { r with name := newName, displayName := dn }
              else r)
            let ars2 :=
              match getActive s.activeRooms roomId with
              | some ar =>
                  putActive s.activeRooms { ar with name := newName, displayName := dn }
              | none => s.activeRooms
            let s2 : ServerState :=
              { s with db := { s.db with rooms := rooms2 }, activeRooms := ars2 }
            (s2, broadcastToRoom ars2 roomId
              (SMsg.roomRenamed roomId newName dn) none)

/-- `handleDeleteRoom(user, { roomId })`: soft-delete the row, notify the
live roster, evict the active room. Sessions are left untouched. -/
def handleDeleteRoom (s : ServerState) (sid : Nat) (roomId : String)
    (now : Nat) : ServerState × List Out :=
  match findSession s.sessions sid with
  | none => (s, [])
  | some u =>
    if roomId == "" then
      (s, [Out.send sid (SMsg.errorMsg Err.roomIdRequired)])
    else
      match s.db.rooms.find? (fun r => r.id == roomId) with
      | none => (s, [Out.send sid (SMsg.errorMsg Err.roomNotFound)])
      | some room =>
        if room.creatorId != u.userId then
          (s, [Out.send sid (SMsg.errorMsg Err.notOwnerDelete)])
        else
          let rooms2 := s.db.rooms.map (fun r =>
            if r.id == roomId then { r with deletedAt := some now } else r)
          let s1 : ServerState := { s with db := { s.db with rooms := rooms2 } }
          let bc := broadcastToRoom s1.activeRooms roomId
            (SMsg.roomDeleted roomId) none
          ({ s1 with activeRooms := dropActive s1.activeRooms roomId }, bc)

/-- `handleCreateRoom(user, { name, displayName?, roomType })`: on a name
hit against a soft-deleted row, that row is renamed under the hood
(`name_deleted_<timestamp>`) to free the unique name before creation. -/
def handleCreateRoom (s : ServerState) (sid : Nat) (name : String)
    (displayName : Option String) (roomType : String)
    (freshRoomId freshKey : String) (now : Nat) : ServerState × List Out :=
  match findSession s.sessions sid with
  | none => (s, [])
  | some u =>
    if name == "" then
      (s, [Out.send sid (SMsg.errorMsg Err.nameRequired)])
    else if roomType != "public" && roomType != "private" then
      (s, [Out.send sid (SMsg.errorMsg Err.roomTypeInvalid)])
    else
      let freed : Option Db :=
        match s.db.rooms.find? (fun r => r.name == name) with
        | some ex =>
          if ex.deletedAt == none then none
          else some { s.db with rooms := s.db.rooms.map (fun r =>
            if r.id == ex.id then
              { r with name := name ++ "_deleted_" ++ toString now }
            else r) }
        | none => some s.db
      match freed with
      | none => (s, [Out.send sid (SMsg.errorMsg Err.nameTaken)])
      | some db1 =>
        let room : DbRoom :=
          { id := freshRoomId, name := name,
            displayName := optOr displayName ("#" ++ name),
            roomType := roomType, encryptedKey := freshKey,
            creatorId := u.userId, deletedAt := none }
        let db2 : Db :=
          { db1 with
            rooms := db1.rooms ++ [room]
            members := db1.members ++
              [{ roomId := freshRoomId, userId := u.userId }] }
        ({ s with db := db2 },
         [Out.send sid (SMsg.roomCreated freshRoomId name)])

/-- The formatted room record of a `roomsList` reply: `memberCount` is the
Prisma `_count.members` aggregate, i.e. the number of durable membership
rows; `isJoined` reflects the filtered `members` include. -/
def formatRoom (db : Db) (uid : String) (r : DbRoom) : RoomInfo :=
  { roomId := r.id, name := r.name, displayName := r.displayName,
    roomType := r.roomType,
    memberCount := (db.members.filter (fun m => m.roomId == r.id)).length,
    isJoined := !(db.members.filter
      (fun m => m.roomId == r.id && m.userId == uid)).isEmpty }

/-- The first `handleListRooms` query: all non-deleted public rooms. -/
def pubRooms (db : Db) : List DbRoom :=
  db.rooms.filter (fun r => r.roomType == "public" && r.deletedAt == none)

/-- The second `handleListRooms` query: non-deleted private/dm rooms with
a membership row for this identity. -/
def privRooms (db : Db) (uid : String) : List DbRoom :=
  db.rooms.filter (fun r =>
    (r.roomType == "private" || r.roomType == "dm") && r.deletedAt == none &&
    db.members.any (fun m => m.roomId == r.id && m.userId == uid))

/-- `handleListRooms(user)`. -/
def handleListRooms (s : ServerState) (sid : Nat) : ServerState × List Out :=
  match findSession s.sessions sid with
  | none => (s, [])
  | some u =>
    (s, [Out.send sid (SMsg.roomsList
      ((pubRooms s.db).map (formatRoom s.db u.userId))
      ((privRooms s.db u.userId).map (formatRoom s.db u.userId)))])

/-- `code.toUpperCase()`, written over the character list so that concrete
evaluation reduces in the kernel. -/
def upperString (s : String) : String :=
  String.mk (s.data.map Char.toUpper)

/-- `prisma.roomInvite.findUnique({ where: { code: code.toUpperCase() } })`. -/
def findInvite (db : Db) (code : String) : Option DbInvite :=
  db.invites.find? (fun i => i.code == upperString code)

/-- `handleJoinViaInvite(user, { code })`. The invite's room row is part
of the invite query's `include` (foreign-key integrity makes it present;
the unreachable missing-room case is folded into the invalid-code reply). -/
def handleJoinViaInvite (s : ServerState) (sid : Nat) (code : String)
    (now : Nat) : ServerState × List Out :=
  match findSession s.sessions sid with
  | none => (s, [])
  | some u =>
    if code == "" then
      (s, [Out.send sid (SMsg.errorMsg Err.codeRequired)])
    else
      match findInvite s.db code with
      | none => (s, [Out.send sid (SMsg.errorMsg Err.invalidCode)])
      | some inv =>
        match s.db.rooms.find? (fun r => r.id == inv.roomId) with
        | none => (s, [Out.send sid (SMsg.errorMsg Err.invalidCode)])
        | some room =>
          if inv.expiresAt < now then
            (s, [Out.send sid (SMsg.errorMsg Err.inviteExpired)])
          else if inv.usedById.isSome then
            (s, [Out.send sid (SMsg.errorMsg Err.inviteAlreadyUsed)])
          else if room.deletedAt.isSome then
            (s, [Out.send sid (SMsg.errorMsg Err.roomGone)])
          else if (s.db.members.find?
              (fun m => m.roomId == inv.roomId && m.userId == u.userId)).isSome then
            (s, [Out.send sid (SMsg.errorMsg Err.alreadyMember)])
          else
            let invites2 := s.db.invites.map (fun i =>
              if i.inviteId == inv.inviteId then
                { i with usedById := some u.userId, usedAt := some now }
              else i)
            let members2 := s.db.members ++
              [{ roomId := inv.roomId, userId := u.userId }]
            let history := roomHistory s.db inv.roomId
            let sA : ServerState :=
              { s with db := { s.db with invites := invites2, members := members2 } }
            let s1out :=
              match u.currentRoomId with
              | some cur => handleLeaveRoom sA sid (some cur)
              | none => (sA, [])
            let s1 := s1out.1
            let ar2 := addToRoster (activateRoom s1.activeRooms room) sid
              u.userId u.username
            let ars2 := putActive s1.activeRooms ar2
            let sess2 := setCurrentRoom s1.sessions sid (some room.id)
            let s2 : ServerState :=
              { db := s1.db, sessions := sess2, activeRooms := ars2 }
            let online := ar2.users.map (fun e => (e.username, e.userId))
            let bc := broadcastToRoom ars2 room.id
              (SMsg.userJoined u.username u.userId) (some sid)
            (s2, s1out.2 ++
              [Out.send sid (SMsg.roomJoined room.id room.name history online)] ++ bc)

/-! ## The roster/session consistency invariant -/

/-- The session identified by `sid` is on the roster of the active room
registered under `rid`. -/
def inRoster (ars : List ActiveRoom) (sid : Nat) (rid : String) : Bool :=
  match getActive ars rid with
  | none => false
  | some ar => ar.users.any (fun e => e.sid == sid)

/-- A session's `currentRoomId`, when set, points at an active room whose
roster contains the session. -/
def sessionOk (ars : List ActiveRoom) (u : Session) : Bool :=
  match u.currentRoomId with
  | some rid => inRoster ars u.sid rid
  | none => true

/-- A roster entry of the room registered under `rid` refers to a live
session whose `currentRoomId` is that very room. -/
def rosterEntryOk (sl : List Session) (rid : String) (e : RosterEntry) : Bool :=
  sl.any (fun v => v.sid == e.sid && v.userId == e.userId &&
    v.username == e.username && v.currentRoomId == some rid)

/-- Well-formedness of the in-memory registries: connection ids and user
ids identify sessions uniquely, the room registry is keyed by room id,
every roster entry belongs to a session currently in that room, every
session's current room contains it, and no registered room is empty. -/
def stateInv (s : ServerState) : Prop :=
  (s.sessions.map Session.sid).Nodup ∧
  (s.sessions.map Session.userId).Nodup ∧
  (s.activeRooms.map ActiveRoom.id).Nodup ∧
  (∀ ar ∈ s.activeRooms, ∀ e ∈ ar.users, rosterEntryOk s.sessions ar.id e = true) ∧
  (∀ u ∈ s.sessions, sessionOk s.activeRooms u = true) ∧
  (∀ ar ∈ s.activeRooms, ar.users ≠ [])

instance stateInvDecidable (s : ServerState) : Decidable (stateInv s) := by
  unfold stateInv
  infer_instance

/-! ## Concrete fixture states for counterexamples and witnesses -/

def bobUser : DbUser := { id := "u1", username := "bob" }

def eveUser : DbUser := { id := "u2", username := "eve" }

def alphaRoom : DbRoom :=
  { id := "r1", name := "alpha", displayName := "#alpha", roomType := "public",
    encryptedKey := "k", creatorId := "u1", deletedAt := none }

def alphaDeletedRoom : DbRoom :=
  { id := "r9", name := "alpha", displayName := "#alpha", roomType := "public",
    encryptedKey := "k", creatorId := "u1", deletedAt := some 2 }

def betaDeletedRoom : DbRoom :=
  { id := "r2", name := "beta", displayName := "#beta", roomType := "public",
    encryptedKey := "k", creatorId := "u1", deletedAt := some 3 }

def dmRoom : DbRoom :=
  { id := "r5", name := "dm_x", displayName := "eve, carl", roomType := "dm",
    encryptedKey := "k5", creatorId := "u2", deletedAt := none }

def inviteFix : DbInvite :=
  { inviteId := "i1", code := "ABCD1234", roomId := "r1", createdById := "u9",
    expiresAt := 100, usedById := none, usedAt := none }

def emptyDb : Db :=
  { users := [], rooms := [], members := [], invites := [], messages := [] }

def bobSession : Session :=
  { sid := 1, userId := "u1", username := "bob", currentRoomId := none,
    isAuthenticated := true }

def eveSession : Session :=
  { sid := 2, userId := "u2", username := "eve", currentRoomId := none,
    isAuthenticated := true }

def bobInRoom : Session := { bobSession with currentRoomId := some "r1" }

def eveInRoom : Session := { eveSession with currentRoomId := some "r1" }

def liveAlpha : ActiveRoom :=
  { id := "r1", name := "alpha", displayName := "#alpha", roomType := "public",
    encryptedKey := "k",
    users := [{ sid := 1, userId := "u1", username := "bob" },
              { sid := 2, userId := "u2", username := "eve" }] }

def c1State : ServerState :=
  { db := { emptyDb with users := [bobUser], rooms := [alphaRoom] },
    sessions := [bobSession], activeRooms := [] }

def c2Db : Db :=
  { emptyDb with
      users := [bobUser, eveUser]
      rooms := [alphaRoom]
      members := [{ roomId := "r1", userId := "u1" },
                  { roomId := "r1", userId := "u2" }] }

def c2State : ServerState :=
  { db := c2Db, sessions := [bobInRoom, eveInRoom], activeRooms := [liveAlpha] }

def c5Db : Db :=
  { emptyDb with
      users := [bobUser]
      rooms := [alphaRoom]
      invites := [inviteFix] }

def c5State : ServerState :=
  { db := c5Db, sessions := [bobSession], activeRooms := [] }

def c6State : ServerState :=
  { db := { emptyDb with users := [bobUser], rooms := [alphaDeletedRoom] },
    sessions := [bobSession], activeRooms := [] }

def c7Db : Db :=
  { emptyDb with
      users := [bobUser]
      rooms := [alphaRoom, betaDeletedRoom] }

def c7State : ServerState :=
  { db := c7Db, sessions := [bobSession], activeRooms := [] }

def c8Db : Db :=
  { emptyDb with
      users := [bobUser]
      rooms := [alphaRoom]
      members := [{ roomId := "r1", userId := "u2" }] }

def c8State : ServerState :=
  { db := c8Db, sessions := [bobSession], activeRooms := [] }

def c9State : ServerState :=
  { db := { emptyDb with users := [bobUser], rooms := [dmRoom] },
    sessions := [bobSession], activeRooms := [] }

/-! ## Helper lemmas about the registry primitives -/

theorem find_map_pres {α : Type} (f : α → α) (p : α → Bool)
    (hp : ∀ x, p (f x) = p x) (l : List α) :
    (l.map f).find? p = (l.find? p).map f := by
  induction l with
  | nil => rfl
  | cons a t ih =>
    by_cases h : p a = true
    · rw [List.map_cons, List.find?_cons_of_pos _ ((hp a).trans h),
        List.find?_cons_of_pos _ h, Option.map_some']
    · rw [List.map_cons, List.find?_cons_of_neg _ (by simp [hp a, h]),
        List.find?_cons_of_neg _ (by simpa using h), ih]

theorem findSession_mem {sl : List Session} {i : Nat} {u : Session}
    (h : findSession sl i = some u) : u ∈ sl ∧ u.sid = i := by
  refine ⟨List.mem_of_find?_eq_some h, ?_⟩
  have := List.find?_some h
  simpa [beq_iff_eq] using this

theorem setCurrentRoom_map_sid (sl : List Session) (i : Nat) (r : Option String) :
    (setCurrentRoom sl i r).map Session.sid = sl.map Session.sid := by
  unfold setCurrentRoom
  rw [List.map_map]
  apply List.map_congr_left
  intro v _
  by_cases h : v.sid = i <;> simp [h]

theorem setCurrentRoom_map_userId (sl : List Session) (i : Nat) (r : Option String) :
    (setCurrentRoom sl i r).map Session.userId = sl.map Session.userId := by
  unfold setCurrentRoom
  rw [List.map_map]
  apply List.map_congr_left
  intro v _
  by_cases h : v.sid = i <;> simp [h]

theorem findSession_setCurrentRoom_self (sl : List Session) (i : Nat)
    (r : Option String) :
    findSession (setCurrentRoom sl i r) i =
      (findSession sl i).map (fun v => { v with currentRoomId := r }) := by
  unfold findSession setCurrentRoom
  rw [find_map_pres _ _ (fun v => by by_cases h : v.sid = i <;> simp [h])]
  rcases h : sl.find? (fun v => v.sid == i) with _ | v
  · rw [h]
    rfl
  · rw [h]
    have hv := List.find?_some h
    simp only [Option.map_some']
    simp [hv]

theorem findSession_setCurrentRoom_ne (sl : List Session) {i j : Nat}
    (hne : j ≠ i) (r : Option String) :
    findSession (setCurrentRoom sl i r) j = findSession sl j := by
  unfold findSession setCurrentRoom
  rw [find_map_pres _ _ (fun v => ?_)]
  · rcases h : sl.find? (fun v => v.sid == j) with _ | v
    · rw [h]
      rfl
    · rw [h]
      have hv := List.find?_some h
      have hvi : v.sid ≠ i := by
        simp only [beq_iff_eq] at hv
        omega
      simp [Option.map_some', hvi]
  · by_cases h : v.sid = i
    · have : v.sid ≠ j := by omega
      simp [h, this]
    · simp [h]

theorem getActive_mem {ars : List ActiveRoom} {rid : String} {ar : ActiveRoom}
    (h : getActive ars rid = some ar) : ar ∈ ars ∧ ar.id = rid := by
  refine ⟨List.mem_of_find?_eq_some h, ?_⟩
  have := List.find?_some h
  simpa [beq_iff_eq] using this

theorem getActive_eq_none_iff {ars : List ActiveRoom} {rid : String} :
    getActive ars rid = none ↔ ∀ ar ∈ ars, ar.id ≠ rid := by
  unfold getActive
  rw [List.find?_eq_none]
  simp [beq_iff_eq]

theorem getActive_putActive_self (ars : List ActiveRoom) (ar : ActiveRoom) :
    getActive (putActive ars ar) ar.id = some ar := by
  unfold putActive
  by_cases h : (getActive ars ar.id).isSome
  · rw [if_pos h]
    unfold getActive at h ⊢
    rw [find_map_pres _ _ (fun x => ?_)]
    · rcases hf : ars.find? (fun x => x.id == ar.id) with _ | x
      · rw [hf] at h
        simp at h
      · rw [hf]
        have hx : x.id = ar.id := by simpa using List.find?_some hf
        simp [Option.map_some', hx]
    · by_cases hx : x.id = ar.id <;> simp [hx]
  · rw [if_neg h]
    unfold getActive at h ⊢
    rw [Option.not_isSome_iff_eq_none] at h
    rw [List.find?_append, h]
    have hone : List.find? (fun x => x.id == ar.id) [ar] = some ar :=
      List.find?_cons_of_pos _ (by simp)
    simp [hone]

theorem getActive_putActive_ne (ars : List ActiveRoom) (ar : ActiveRoom)
    {rid : String} (hne : rid ≠ ar.id) :
    getActive (putActive ars ar) rid = getActive ars rid := by
  unfold putActive
  by_cases h : (getActive ars ar.id).isSome
  · rw [if_pos h]
    unfold getActive
    rw [find_map_pres _ _ (fun x => ?_)]
    · rcases hf : ars.find? (fun x => x.id == rid) with _ | x
      · rw [hf]
        rfl
      · rw [hf]
        have hx := List.find?_some hf
        have hxa : x.id ≠ ar.id := by
          simp only [beq_iff_eq] at hx
          rw [hx]
          exact hne
        simp [Option.map_some', hxa]
    · by_cases hx : x.id = ar.id
      · have : ar.id ≠ rid := fun hh => hne hh.symm
        simp [hx, this]
      · simp [hx]
  · rw [if_neg h]
    unfold getActive
    rw [List.find?_append]
    rcases hf : ars.find? (fun x => x.id == rid) with _ | x
    · rw [hf]
      have hb : (ar.id == rid) = false := by
        rw [beq_eq_false_iff_ne]
        exact fun hh => hne hh.symm
      have hone : List.find? (fun x => x.id == rid) [ar] = none :=
        List.find?_cons_of_neg _ (by simp [hb])
      simp [hone]
    · rw [hf]
      rfl

theorem mem_putActive {ars : List ActiveRoom} {ar x : ActiveRoom}
    (h : x ∈ putActive ars ar) : x = ar ∨ (x ∈ ars ∧ x.id ≠ ar.id) := by
  unfold putActive at h
  by_cases hp : (getActive ars ar.id).isSome
  · rw [if_pos hp] at h
    rcases List.mem_map.1 h with ⟨x0, hx0, hx⟩
    by_cases hid : x0.id = ar.id
    · left
      rw [← hx]
      simp [hid]
    · right
      have : x = x0 := by
        rw [← hx]
        simp [hid]
      rw [this]
      exact ⟨hx0, hid⟩
  · rw [if_neg hp] at h
    rcases List.mem_append.1 h with hx | hx
    · right
      refine ⟨hx, ?_⟩
      have := getActive_eq_none_iff.1 (Option.not_isSome_iff_eq_none.1 hp)
      exact this x hx
    · left
      simpa using hx

theorem putActive_map_id_nodup {ars : List ActiveRoom} (ar : ActiveRoom)
    (h : ((ars.map ActiveRoom.id)).Nodup) :
    (((putActive ars ar).map ActiveRoom.id)).Nodup := by
  unfold putActive
  by_cases hp : (getActive ars ar.id).isSome
  · rw [if_pos hp]
    have : (ars.map (fun x => if x.id == ar.id then ar else x)).map ActiveRoom.id
        = ars.map ActiveRoom.id := by
      rw [List.map_map]
      apply List.map_congr_left
      intro x _
      by_cases hx : x.id = ar.id <;> simp [hx]
    rw [this]
    exact h
  · rw [if_neg hp]
    rw [List.map_append]
    rw [List.nodup_append]
    refine ⟨h, by simp, ?_⟩
    intro a ha hb
    simp only [List.map_cons, List.map_nil, List.mem_cons, List.not_mem_nil,
      or_false] at hb
    have := getActive_eq_none_iff.1 (Option.not_isSome_iff_eq_none.1 hp)
    rcases List.mem_map.1 ha with ⟨x, hx, rfl⟩
    exact (this x hx) (by simpa using hb)

theorem getActive_dropActive_self (ars : List ActiveRoom) (rid : String) :
    getActive (dropActive ars rid) rid = none := by
  unfold getActive dropActive
  rw [List.find?_eq_none]
  intro x hx
  have := (List.mem_filter.1 hx).2
  simpa [bne_iff_ne, beq_iff_eq] using this

theorem getActive_dropActive_ne (ars : List ActiveRoom) {rid rid' : String}
    (hne : rid' ≠ rid) : getActive (dropActive ars rid) rid' = getActive ars rid' := by
  unfold getActive dropActive
  induction ars with
  | nil => rfl
  | cons a t ih =>
    rw [List.filter_cons]
    by_cases ha : a.id = rid
    · have h1 : (a.id != rid) = false := by simp [ha]
      have h2 : (a.id == rid') = false := by
        rw [beq_eq_false_iff_ne, ha]
        exact fun hh => hne hh.symm
      rw [h1, if_neg (by simp)]
      rw [List.find?_cons_of_neg _ (by simp [h2])]
      exact ih
    · have h1 : (a.id != rid) = true := by simp [ha]
      rw [h1, if_pos rfl]
      by_cases h2 : a.id = rid'
      · rw [List.find?_cons_of_pos _ (by simp [h2]),
          List.find?_cons_of_pos _ (by simp [h2])]
      · rw [List.find?_cons_of_neg _ (by simp [h2]),
          List.find?_cons_of_neg _ (by simp [h2])]
        exact ih

theorem mem_dropActive {ars : List ActiveRoom} {rid : String} {x : ActiveRoom} :
    x ∈ dropActive ars rid ↔ x ∈ ars ∧ x.id ≠ rid := by
  unfold dropActive
  rw [List.mem_filter]
  simp [bne_iff_ne]

theorem dropActive_map_id_nodup {ars : List ActiveRoom} (rid : String)
    (h : ((ars.map ActiveRoom.id)).Nodup) :
    (((dropActive ars rid).map ActiveRoom.id)).Nodup := by
  exact ((List.filter_sublist ars).map ActiveRoom.id).nodup h

theorem nodup_map_inj {α β : Type} {f : α → β} {l : List α}
    (h : ((l.map f)).Nodup) {a b : α} (ha : a ∈ l) (hb : b ∈ l)
    (hf : f a = f b) : a = b :=
  List.inj_on_of_nodup_map h ha hb hf

/-! ## Consequences of the invariant -/

theorem stateInv_of_eq_regs {s s' : ServerState} (h : stateInv s)
    (hsess : s'.sessions = s.sessions) (hars : s'.activeRooms = s.activeRooms) :
    stateInv s' := by
  unfold stateInv at h ⊢
  rw [hsess, hars]
  exact h

theorem entry_session {s : ServerState} (h : stateInv s) {ar : ActiveRoom}
    (har : ar ∈ s.activeRooms) {e : RosterEntry} (he : e ∈ ar.users) :
    ∃ v ∈ s.sessions, v.sid = e.sid ∧ v.userId = e.userId ∧
      v.username = e.username ∧ v.currentRoomId = some ar.id := by
  have hx := h.2.2.2.1 ar har e he
  unfold rosterEntryOk at hx
  rcases List.any_eq_true.1 hx with ⟨v, hv, hvb⟩
  refine ⟨v, hv, ?_⟩
  simp only [Bool.and_eq_true, beq_iff_eq] at hvb
  exact ⟨hvb.1.1.1, hvb.1.1.2, hvb.1.2, hvb.2⟩

theorem sid_ne_of_ne {s : ServerState} (h : stateInv s) {v u : Session}
    (hv : v ∈ s.sessions) (hu : u ∈ s.sessions) (hne : v ≠ u) :
    v.sid ≠ u.sid :=
  fun hh => hne (nodup_map_inj h.1 hv hu hh)

theorem userId_ne_of_ne {s : ServerState} (h : stateInv s) {v u : Session}
    (hv : v ∈ s.sessions) (hu : u ∈ s.sessions) (hne : v ≠ u) :
    v.userId ≠ u.userId :=
  fun hh => hne (nodup_map_inj h.2.1 hv hu hh)

/-- A roster entry carrying `u`'s user id can only refer to `u` itself, so
`u.currentRoomId` must point at the room holding that entry. -/
theorem entry_userId_is_self {s : ServerState} (h : stateInv s) {u : Session}
    (hu : u ∈ s.sessions) {ar : ActiveRoom} (har : ar ∈ s.activeRooms)
    {e : RosterEntry} (he : e ∈ ar.users) (heq : e.userId = u.userId) :
    e.sid = u.sid ∧ e.username = u.username ∧ u.currentRoomId = some ar.id := by
  obtain ⟨v, hv, hsid, huid, hname, hcur⟩ := entry_session h har he
  have hvu : v = u := nodup_map_inj h.2.1 hv hu (by rw [huid, heq])
  subst hvu
  exact ⟨hsid.symm, hname.symm, hcur⟩

/-- A roster entry carrying `u`'s connection id can only refer to `u`. -/
theorem entry_sid_is_self {s : ServerState} (h : stateInv s) {u : Session}
    (hu : u ∈ s.sessions) {ar : ActiveRoom} (har : ar ∈ s.activeRooms)
    {e : RosterEntry} (he : e ∈ ar.users) (heq : e.sid = u.sid) :
    e.userId = u.userId ∧ u.currentRoomId = some ar.id := by
  obtain ⟨v, hv, hsid, huid, hname, hcur⟩ := entry_session h har he
  have hvu : v = u := nodup_map_inj h.1 hv hu (by rw [hsid, heq])
  subst hvu
  exact ⟨huid.symm, hcur⟩

/-- An entry of a room other than `u`'s current room never carries `u`'s
user id. -/
theorem not_on_other_roster {s : ServerState} (h : stateInv s) {u : Session}
    (hu : u ∈ s.sessions) {ar : ActiveRoom} (har : ar ∈ s.activeRooms)
    (hne : u.currentRoomId ≠ some ar.id) :
    ∀ e ∈ ar.users, e.userId ≠ u.userId := by
  intro e he heq
  exact hne (entry_userId_is_self h hu har he heq).2.2

/-- Setting `u`'s current room pointer does not disturb the roster/session
link of an entry that does not carry `u`'s user id. -/
theorem rosterEntryOk_setCurrentRoom_of_ne {s : ServerState} (h : stateInv s)
    {u : Session} (humem : u ∈ s.sessions) {x : ActiveRoom}
    (hx : x ∈ s.activeRooms) {e : RosterEntry} (he : e ∈ x.users)
    (hnu : e.userId ≠ u.userId) (r : Option String) :
    rosterEntryOk (setCurrentRoom s.sessions u.sid r) x.id e = true := by
  obtain ⟨v, hv, hsid, huid, hname, hcur⟩ := entry_session h hx he
  have hvne : v ≠ u := fun hh => hnu (by rw [← huid, hh])
  have hvsid : v.sid ≠ u.sid := sid_ne_of_ne h hv humem hvne
  unfold rosterEntryOk
  rw [List.any_eq_true]
  refine ⟨_, List.mem_map_of_mem _ hv, ?_⟩
  rw [if_neg (by simpa using hvsid)]
  simp [hsid, huid, hname, hcur]

/-! ## Invariant preservation -/

/-- Leaving a room preserves the invariant, provided the left room is the
session's current room (the wire protocol lets a client name an arbitrary
`roomId`; see the delete-room counterexample for what unrestricted inputs
break). -/
theorem leave_preserves_inv {s : ServerState} (h : stateInv s) (sid : Nat)
    (rid : String)
    (hown : ∀ u, findSession s.sessions sid = some u →
      u.currentRoomId = none ∨ u.currentRoomId = some rid) :
    stateInv (handleLeaveRoom s sid (some rid)).1 := by
  unfold handleLeaveRoom
  rcases hfind : findSession s.sessions sid with _ | u
  · simp only [hfind]
    exact h
  · simp only [hfind]
    obtain ⟨humem, husid⟩ := findSession_mem hfind
    subst husid
    have huown := hown u hfind
    rcases hga : getActive s.activeRooms rid with _ | ar
    · simp only [hga]
      have hnone := getActive_eq_none_iff.1 hga
      unfold stateInv
      refine ⟨?_, ?_, ?_, ?_, ?_, ?_⟩
      · rw [setCurrentRoom_map_sid]
        exact h.1
      · rw [setCurrentRoom_map_userId]
        exact h.2.1
      · exact h.2.2.1
      · intro x hx e he
        have hnu : e.userId ≠ u.userId := by
          intro heq
          have hcur := (entry_userId_is_self h humem hx he heq).2.2
          rcases huown with hc | hc
          · rw [hc] at hcur
            exact Option.noConfusion hcur
          · rw [hc] at hcur
            exact hnone x hx (Option.some.inj hcur).symm
        exact rosterEntryOk_setCurrentRoom_of_ne h humem hx he hnu none
      · intro w hw
        rcases List.mem_map.1 hw with ⟨v, hv, rfl⟩
        by_cases hvs : v.sid = u.sid
        · rw [if_pos (by simpa using hvs)]
          rfl
        · rw [if_neg (by simpa using hvs)]
          exact h.2.2.2.2.1 v hv
      · exact h.2.2.2.2.2
    · simp only [hga]
      obtain ⟨harmem, harid⟩ := getActive_mem hga
      by_cases hemp : (ar.users.filter (fun e => e.userId != u.userId)).isEmpty = true
      · rw [if_pos hemp]
        have hall : ∀ e ∈ ar.users, e.userId = u.userId := by
          intro e he
          have := List.filter_eq_nil_iff.1 (List.isEmpty_iff.1 hemp) e he
          simpa [bne_iff_ne] using this
        unfold stateInv
        refine ⟨?_, ?_, ?_, ?_, ?_, ?_⟩
        · rw [setCurrentRoom_map_sid]
          exact h.1
        · rw [setCurrentRoom_map_userId]
          exact h.2.1
        · exact dropActive_map_id_nodup _ (putActive_map_id_nodup _ h.2.2.1)
        · intro x hx e he
          obtain ⟨hx1, hxid⟩ := mem_dropActive.1 hx
          rcases mem_putActive hx1 with rfl | ⟨hxold, _⟩
          · exact absurd harid hxid
          · have hnu : e.userId ≠ u.userId := by
              intro heq
              have hcur := (entry_userId_is_self h humem hxold he heq).2.2
              rcases huown with hc | hc
              · rw [hc] at hcur
                exact Option.noConfusion hcur
              · rw [hc] at hcur
                exact hxid (Option.some.inj hcur).symm
            exact rosterEntryOk_setCurrentRoom_of_ne h humem hxold he hnu none
        · intro w hw
          rcases List.mem_map.1 hw with ⟨v, hv, rfl⟩
          by_cases hvs : v.sid = u.sid
          · rw [if_pos (by simpa using hvs)]
            rfl
          · rw [if_neg (by simpa using hvs)]
            have hvne : v ≠ u := fun hh => hvs (by rw [hh])
            have hold := h.2.2.2.2.1 v hv
            unfold sessionOk at hold ⊢
            rcases hvc : v.currentRoomId with _ | rid2
            · simp only [hvc]
            · simp only [hvc] at hold ⊢
              by_cases hr : rid2 = rid
              · exfalso
                rw [hr] at hold
                simp only [inRoster, hga] at hold
                rcases List.any_eq_true.1 hold with ⟨e, he, heb⟩
                have hesid : e.sid = v.sid := by simpa using heb
                have heuid := (entry_sid_is_self h hv harmem he hesid).1
                have hvu := userId_ne_of_ne h hv humem hvne
                rw [← heuid] at hvu
                exact hvu (hall e he)
              · simp only [inRoster] at hold ⊢
                rw [getActive_dropActive_ne _ hr, getActive_putActive_ne _ _ (by simpa [harid] using hr)]
                exact hold
        · intro x hx
          obtain ⟨hx1, hxid⟩ := mem_dropActive.1 hx
          rcases mem_putActive hx1 with rfl | ⟨hxold, _⟩
          · exact absurd harid hxid
          · exact h.2.2.2.2.2 x hxold
      · rw [if_neg hemp]
        unfold stateInv
        refine ⟨?_, ?_, ?_, ?_, ?_, ?_⟩
        · rw [setCurrentRoom_map_sid]
          exact h.1
        · rw [setCurrentRoom_map_userId]
          exact h.2.1
        · exact putActive_map_id_nodup _ h.2.2.1
        · intro x hx e he
          rcases mem_putActive hx with rfl | ⟨hxold, hxid⟩
          · have he2 := List.mem_filter.1 he
            have hnu : e.userId ≠ u.userId := by
              simpa [bne_iff_ne] using he2.2
            have hok := rosterEntryOk_setCurrentRoom_of_ne h humem harmem he2.1 hnu none
            simpa using hok
          · have hnu : e.userId ≠ u.userId := by
              intro heq
              have hcur := (entry_userId_is_self h humem hxold he heq).2.2
              rcases huown with hc | hc
              · rw [hc] at hcur
                exact Option.noConfusion hcur
              · rw [hc] at hcur
                apply hxid
                have hxr : x.id = rid := (Option.some.inj hcur).symm
                simpa [harid] using hxr
            exact rosterEntryOk_setCurrentRoom_of_ne h humem hxold he hnu none
        · intro w hw
          rcases List.mem_map.1 hw with ⟨v, hv, rfl⟩
          by_cases hvs : v.sid = u.sid
          · rw [if_pos (by simpa using hvs)]
            rfl
          · rw [if_neg (by simpa using hvs)]
            have hvne : v ≠ u := fun hh => hvs (by rw [hh])
            have hold := h.2.2.2.2.1 v hv
            unfold sessionOk at hold ⊢
            rcases hvc : v.currentRoomId with _ | rid2
            · simp only [hvc]
            · simp only [hvc] at hold ⊢
              by_cases hr : rid2 = rid
              · rw [hr] at hold ⊢
                simp only [inRoster, hga] at hold
                rcases List.any_eq_true.1 hold with ⟨e, he, heb⟩
                have hesid : e.sid = v.sid := by simpa using heb
                have heuid := (entry_sid_is_self h hv harmem he hesid).1
                have hvu := userId_ne_of_ne h hv humem hvne
                have henu : (e.userId != u.userId) = true := by
                  rw [bne_iff_ne, heuid]
                  exact hvu
                have hget := getActive_putActive_self s.activeRooms { ar with users := ar.users.filter (fun e => e.userId != u.userId) }
                simp only [inRoster]
                rw [show (rid : String) = ({ ar with users := ar.users.filter (fun e => e.userId != u.userId) } : ActiveRoom).id from harid.symm, hget]
                rw [List.any_eq_true]
                exact ⟨e, List.mem_filter.2 ⟨he, henu⟩, heb⟩
              · simp only [inRoster] at hold ⊢
                rw [getActive_putActive_ne _ _ (by simpa [harid] using hr)]
                exact hold
        · intro x hx
          rcases mem_putActive hx with rfl | ⟨hxold, _⟩
          · intro hnil
            apply hemp
            rw [List.isEmpty_iff]
            exact hnil
          · exact h.2.2.2.2.2 x hxold

theorem leave_result_sessions {s : ServerState} {sid : Nat} {u : Session}
    (hfind : findSession s.sessions sid = some u) (rid : String) :
    (handleLeaveRoom s sid (some rid)).1.sessions =
      setCurrentRoom s.sessions sid none := by
  unfold handleLeaveRoom
  simp only [hfind]
  rcases hga : getActive s.activeRooms rid with _ | ar
  · simp only [hga]
  · simp only [hga]

theorem leave_result_db (s : ServerState) (sid : Nat) (roomId : Option String) :
    (handleLeaveRoom s sid roomId).1.db = s.db := by
  unfold handleLeaveRoom
  rcases hfind : findSession s.sessions sid with _ | u
  · simp only [hfind]
  · simp only [hfind]
    rcases roomId with _ | rid
    · rfl
    · rcases hga : getActive s.activeRooms rid with _ | ar
      · simp only [hga]
      · simp only [hga]

/-- A roster entry of the target room keeps its live witness when the
joining session's pointer is set to that very room. -/
theorem rosterEntryOk_setCurrentRoom_target {s1 : ServerState} (h1 : stateInv s1)
    {u1 : Session} (humem : u1 ∈ s1.sessions) (hcur1 : u1.currentRoomId = none)
    {rid : String} {e : RosterEntry}
    (hold : rosterEntryOk s1.sessions rid e = true) :
    rosterEntryOk (setCurrentRoom s1.sessions u1.sid (some rid)) rid e = true := by
  unfold rosterEntryOk at hold ⊢
  rcases List.any_eq_true.1 hold with ⟨v, hv, hb⟩
  rw [List.any_eq_true]
  have hvcur : v.currentRoomId = some rid := by
    simp only [Bool.and_eq_true, beq_iff_eq] at hb
    exact hb.2
  have hvne : v.sid ≠ u1.sid := by
    intro hh
    have hvu : v = u1 := nodup_map_inj h1.1 hv humem hh
    rw [hvu, hcur1] at hvcur
    exact Option.noConfusion hvcur
  refine ⟨_, List.mem_map_of_mem _ hv, ?_⟩
  rw [if_neg (by simpa using hvne)]
  exact hb

/-- Both branches of `addToRoster` keep the room id. -/
theorem addToRoster_id (ar : ActiveRoom) (sid : Nat) (uid uname : String) :
    (addToRoster ar sid uid uname).id = ar.id := by
  unfold addToRoster
  split <;> rfl

/-- Core of the join tail, over an abstract pushed roster: pointing a
room-less session at room `rid` and registering a roster that extends the
previously registered entries with that session's entry preserves the
invariant. -/
theorem attach_core {s1 : ServerState} (h1 : stateInv s1) {u1 : Session}
    (humem : u1 ∈ s1.sessions) (hcur1 : u1.currentRoomId = none)
    (rid : String) (ar2 : ActiveRoom) (har2id : ar2.id = rid)
    (nusers : List RosterEntry)
    (har2users : ar2.users = nusers ++ [{ sid := u1.sid, userId := u1.userId, username := u1.username }])
    (hsub : ∀ e ∈ nusers, rosterEntryOk s1.sessions rid e = true)
    (hro : ∀ n : Nat, inRoster s1.activeRooms n rid = true → ∃ e ∈ nusers, e.sid = n)
    (hnoentry : ∀ x ∈ s1.activeRooms, ∀ e ∈ x.users, e.userId ≠ u1.userId)
    (db2 : Db) :
    stateInv
      { db := db2,
        sessions := setCurrentRoom s1.sessions u1.sid (some rid),
        activeRooms := putActive s1.activeRooms ar2 } := by
  have hget2 : getActive (putActive s1.activeRooms ar2) rid = some ar2 := by
    have := getActive_putActive_self s1.activeRooms ar2
    rw [har2id] at this
    exact this
  unfold stateInv
  refine ⟨?_, ?_, ?_, ?_, ?_, ?_⟩
  · rw [setCurrentRoom_map_sid]
    exact h1.1
  · rw [setCurrentRoom_map_userId]
    exact h1.2.1
  · exact putActive_map_id_nodup _ h1.2.2.1
  · intro x hx e he
    rcases mem_putActive hx with rfl | ⟨hxold, hxne⟩
    · rw [har2users] at he
      rw [har2id]
      rcases List.mem_append.1 he with he0 | he0
      · exact rosterEntryOk_setCurrentRoom_target h1 humem hcur1 (hsub e he0)
      · have heq : e = { sid := u1.sid, userId := u1.userId, username := u1.username } := by
          simpa using he0
        subst heq
        unfold rosterEntryOk
        rw [List.any_eq_true]
        refine ⟨_, List.mem_map_of_mem _ humem, ?_⟩
        rw [if_pos (by simp)]
        simp
    · have hnu : e.userId ≠ u1.userId := hnoentry x hxold e he
      exact rosterEntryOk_setCurrentRoom_of_ne h1 humem hxold he hnu (some rid)
  · intro w hw
    rcases List.mem_map.1 hw with ⟨v, hv, rfl⟩
    by_cases hvs : v.sid = u1.sid
    · rw [if_pos (by simpa using hvs)]
      unfold sessionOk inRoster
      simp only [hget2]
      rw [List.any_eq_true]
      refine ⟨{ sid := u1.sid, userId := u1.userId, username := u1.username }, ?_, ?_⟩
      · rw [har2users]
        exact List.mem_append_right _ (by simp)
      · simp [hvs]
    · rw [if_neg (by simpa using hvs)]
      have hold := h1.2.2.2.2.1 v hv
      unfold sessionOk at hold ⊢
      rcases hvc : v.currentRoomId with _ | rid2
      · simp only [hvc]
      · simp only [hvc] at hold ⊢
        by_cases hr : rid2 = rid
        · rw [hr] at hold ⊢
          rcases hro v.sid hold with ⟨e, he, hesid⟩
          unfold inRoster
          simp only [hget2]
          rw [List.any_eq_true]
          refine ⟨e, ?_, by simpa using hesid⟩
          rw [har2users]
          exact List.mem_append_left _ he
        · unfold inRoster at hold ⊢
          rw [getActive_putActive_ne _ _ (by simpa [har2id] using hr)]
          exact hold
  · intro x hx
    rcases mem_putActive hx with rfl | ⟨hxold, _⟩
    · rw [har2users]
      simp
    · exact h1.2.2.2.2.2 x hxold

/-- The common tail of the two join paths: activating the target room,
pushing the joiner onto its roster and pointing the session at it
preserves the invariant, for a session currently in no room. -/
theorem attach_inv {s1 : ServerState} (h1 : stateInv s1) {u1 : Session}
    (hfind1 : findSession s1.sessions u1.sid = some u1)
    (hcur1 : u1.currentRoomId = none) (room : DbRoom) (db2 : Db) :
    stateInv
      { db := db2,
        sessions := setCurrentRoom s1.sessions u1.sid (some room.id),
        activeRooms := putActive s1.activeRooms
          (addToRoster (activateRoom s1.activeRooms room) u1.sid u1.userId u1.username) } := by
  obtain ⟨humem, -⟩ := findSession_mem hfind1
  have hnoentry : ∀ x ∈ s1.activeRooms, ∀ e ∈ x.users, e.userId ≠ u1.userId := by
    intro x hx
    exact not_on_other_roster h1 humem hx
      (by rw [hcur1]; exact fun hh => Option.noConfusion hh)
  have hnarid : (activateRoom s1.activeRooms room).id = room.id := by
    unfold activateRoom
    rcases hget : getActive s1.activeRooms room.id with _ | ar0
    · rfl
    · exact (getActive_mem hget).2
  have hnarsub : ∀ e ∈ (activateRoom s1.activeRooms room).users,
      rosterEntryOk s1.sessions room.id e = true := by
    unfold activateRoom
    rcases hget : getActive s1.activeRooms room.id with _ | ar0
    · intro e he
      exact absurd he (List.not_mem_nil e)
    · intro e he
      obtain ⟨hmem0, hid0⟩ := getActive_mem hget
      have := h1.2.2.2.1 ar0 hmem0 e he
      rw [hid0] at this
      exact this
  have hnarro : ∀ n : Nat, inRoster s1.activeRooms n room.id = true →
      ∃ e ∈ (activateRoom s1.activeRooms room).users, e.sid = n := by
    unfold inRoster activateRoom
    rcases hget : getActive s1.activeRooms room.id with _ | ar0
    · intro n hn
      exact absurd hn (by simp)
    · intro n hn
      rcases List.any_eq_true.1 hn with ⟨e, he, heb⟩
      exact ⟨e, he, by simpa using heb⟩
  have hnarknown : ∀ e ∈ (activateRoom s1.activeRooms room).users,
      e.userId ≠ u1.userId := by
    unfold activateRoom
    rcases hget : getActive s1.activeRooms room.id with _ | ar0
    · intro e he
      exact absurd he (List.not_mem_nil e)
    · intro e he
      exact hnoentry ar0 (getActive_mem hget).1 e he
  apply attach_core h1 humem hcur1 room.id _
    ((addToRoster_id _ _ _ _).trans hnarid)
    (activateRoom s1.activeRooms room).users ?_ hnarsub hnarro hnoentry
  unfold addToRoster
  rw [if_neg]
  intro hany
  rcases List.any_eq_true.1 hany with ⟨e, he, heb⟩
  exact hnarknown e he (by simpa using heb)

/-- `handleJoinRoom` preserves the invariant. -/
theorem join_preserves_inv {s : ServerState} (h : stateInv s) (sid : Nat)
    (roomId roomName : Option String) :
    stateInv (handleJoinRoom s sid roomId roomName).1 := by
  unfold handleJoinRoom
  rcases hfind : findSession s.sessions sid with _ | u
  · simp only [hfind]
    exact h
  · simp only [hfind]
    obtain ⟨humem, husid⟩ := findSession_mem hfind
    subst husid
    by_cases hreq : (roomId == none && roomName == none) = true
    · rw [if_pos hreq]
      exact h
    · rw [if_neg hreq]
      rcases hroom : findJoinRoom s.db roomId roomName with _ | room
      · simp only [hroom]
        exact h
      · simp only [hroom]
        by_cases hpriv : (room.roomType == "private" && (s.db.members.filter
            (fun m => m.roomId == room.id && m.userId == u.userId)).isEmpty) = true
        · rw [if_pos hpriv]
          exact h
        · rw [if_neg hpriv]
          rcases hcur : u.currentRoomId with _ | cur
          · simp only [hcur]
            exact attach_inv h hfind hcur room _
          · simp only [hcur]
            have hs1inv : stateInv (handleLeaveRoom s u.sid (some cur)).1 := by
              apply leave_preserves_inv h
              intro w hw
              rw [hfind] at hw
              have hwu : u = w := Option.some.inj hw
              rw [← hwu, hcur]
              right
              rfl
            have hfind1 : findSession (handleLeaveRoom s u.sid (some cur)).1.sessions
                u.sid = some { u with currentRoomId := none } := by
              rw [leave_result_sessions hfind cur, findSession_setCurrentRoom_self, hfind]
              rfl
            exact @attach_inv _ hs1inv { u with currentRoomId := none } hfind1 rfl room _

/-- `handleSendMessage` never touches the two registries. -/
theorem send_regs (s : ServerState) (sid : Nat) (roomId ciphertext : String)
    (messageType imageData uploadResult : Option String) (persistOk : Bool)
    (freshId : String) (now : Nat) :
    (handleSendMessage s sid roomId ciphertext messageType imageData
      uploadResult persistOk freshId now).1.sessions = s.sessions ∧
    (handleSendMessage s sid roomId ciphertext messageType imageData
      uploadResult persistOk freshId now).1.activeRooms = s.activeRooms := by
  unfold handleSendMessage
  rcases hfind : findSession s.sessions sid with _ | u
  · simp [hfind]
  · simp only [hfind]
    constructor <;> (repeat' split) <;> rfl

theorem send_preserves_inv {s : ServerState} (h : stateInv s) (sid : Nat)
    (roomId ciphertext : String)
    (messageType imageData uploadResult : Option String) (persistOk : Bool)
    (freshId : String) (now : Nat) :
    stateInv (handleSendMessage s sid roomId ciphertext messageType imageData
      uploadResult persistOk freshId now).1 := by
  obtain ⟨h1, h2⟩ := send_regs s sid roomId ciphertext messageType imageData
    uploadResult persistOk freshId now
  exact stateInv_of_eq_regs h h1 h2

/-- Replacing a registered room by one with the same id and the same
roster (e.g. a rename of its display fields) preserves the invariant. -/
theorem replaceActive_inv {s : ServerState} (h : stateInv s) {rid : String}
    {ar Y : ActiveRoom} (hga : getActive s.activeRooms rid = some ar)
    (hYid : Y.id = rid) (hYusers : Y.users = ar.users) (db2 : Db) :
    stateInv
      { db := db2, sessions := s.sessions,
        activeRooms := putActive s.activeRooms Y } := by
  obtain ⟨harmem, harid⟩ := getActive_mem hga
  have hg2 : getActive (putActive s.activeRooms Y) rid = some Y := by
    have hself := getActive_putActive_self s.activeRooms Y
    rw [hYid] at hself
    exact hself
  unfold stateInv
  refine ⟨h.1, h.2.1, ?_, ?_, ?_, ?_⟩
  · exact putActive_map_id_nodup _ h.2.2.1
  · intro x hx e he
    rcases mem_putActive hx with rfl | ⟨hxold, _⟩
    · rw [hYusers] at he
      have hold := h.2.2.2.1 ar harmem e he
      rw [hYid]
      rw [harid] at hold
      exact hold
    · exact h.2.2.2.1 x hxold e he
  · intro w hw
    have hold := h.2.2.2.2.1 w hw
    unfold sessionOk at hold ⊢
    rcases hvc : w.currentRoomId with _ | rid2
    · simp only [hvc]
    · simp only [hvc] at hold ⊢
      by_cases hr : rid2 = rid
      · rw [hr] at hold ⊢
        unfold inRoster at hold ⊢
        simp only [hga] at hold
        simp only [hg2]
        rw [hYusers]
        exact hold
      · unfold inRoster at hold ⊢
        rw [getActive_putActive_ne _ _ (by rw [hYid]; exact hr)]
        exact hold
  · intro x hx
    rcases mem_putActive hx with rfl | ⟨hxold, _⟩
    · rw [hYusers]
      exact h.2.2.2.2.2 ar harmem
    · exact h.2.2.2.2.2 x hxold

theorem rename_preserves_inv {s : ServerState} (h : stateInv s) (sid : Nat)
    (roomId newName : String) :
    stateInv (handleRenameRoom s sid roomId newName).1 := by
  unfold handleRenameRoom
  rcases hfind : findSession s.sessions sid with _ | u
  · simp only [hfind]
    exact h
  · simp only [hfind]
    split
    · exact h
    · rcases hrow : s.db.rooms.find? (fun r => r.id == roomId) with _ | room
      · simp only [hrow]
        exact h
      · simp only [hrow]
        split
        · exact h
        · split
          · exact h
          · rcases hga : getActive s.activeRooms roomId with _ | ar
            · simp only [hga]
              exact stateInv_of_eq_regs h rfl rfl
            · simp only [hga]
              exact @replaceActive_inv s h roomId ar
                { ar with name := newName, displayName :=
                    if room.displayName.startsWith "#" then "#" ++ newName
                    else newName }
                hga (getActive_mem hga).2 rfl _

theorem close_preserves_inv {s : ServerState} (h : stateInv s) (sid : Nat) :
    stateInv (onClose s sid).1 := by
  unfold onClose handleDisconnect
  rcases hfind : findSession s.sessions sid with _ | u
  · simp only [hfind]
    exact h
  · simp only [hfind]
    obtain ⟨humem, husid⟩ := findSession_mem hfind
    subst husid
    have hcore : ∀ s1 : ServerState, stateInv s1 →
        (∀ v ∈ s1.sessions, v.sid = u.sid → v.currentRoomId = none) →
        stateInv { s1 with sessions := s1.sessions.filter (fun v => v.sid != u.sid) } := by
      intro s1 h1 hnone
      unfold stateInv
      refine ⟨?_, ?_, h1.2.2.1, ?_, ?_, h1.2.2.2.2.2⟩
      · exact (((List.filter_sublist s1.sessions).map Session.sid).nodup h1.1)
      · exact (((List.filter_sublist s1.sessions).map Session.userId).nodup h1.2.1)
      · intro x hx e he
        have hold := h1.2.2.2.1 x hx e he
        unfold rosterEntryOk at hold ⊢
        rcases List.any_eq_true.1 hold with ⟨v, hv, hb⟩
        have hvcur : v.currentRoomId = some x.id := by
          simp only [Bool.and_eq_true, beq_iff_eq] at hb
          exact hb.2
        have hvsid : v.sid ≠ u.sid := by
          intro hh
          rw [hnone v hv hh] at hvcur
          exact Option.noConfusion hvcur
        rw [List.any_eq_true]
        exact ⟨v, List.mem_filter.2 ⟨hv, by simpa using hvsid⟩, hb⟩
      · intro w hw
        exact h1.2.2.2.2.1 w (List.mem_filter.1 hw).1
    rcases hcur : u.currentRoomId with _ | rid
    · simp only [hcur]
      apply hcore s h
      intro v hv hvs
      have hvu : v = u := nodup_map_inj h.1 hv humem hvs
      rw [hvu]
      exact hcur
    · simp only [hcur]
      have hs1inv : stateInv (handleLeaveRoom s u.sid (some rid)).1 := by
        apply leave_preserves_inv h
        intro w hw
        rw [hfind] at hw
        have hwu : u = w := Option.some.inj hw
        rw [← hwu, hcur]
        right
        rfl
      apply hcore _ hs1inv
      intro v hv hvs
      rw [leave_result_sessions hfind rid] at hv
      rcases List.mem_map.1 hv with ⟨v0, hv0, rfl⟩
      by_cases hvs0 : v0.sid = u.sid
      · rw [if_pos (by simpa using hvs0)]
      · rw [if_neg (by simpa using hvs0)] at hvs ⊢
        exact absurd hvs hvs0

/-- Any `leaveRoom` call keeps every registered room's roster non-empty:
the branch that empties a roster deletes the room in the same step. -/
theorem leave_keeps_nonempty {s : ServerState}
    (hne : ∀ ar ∈ s.activeRooms, ar.users ≠ []) (sid : Nat)
    (roomId : Option String) :
    ∀ ar ∈ (handleLeaveRoom s sid roomId).1.activeRooms, ar.users ≠ [] := by
  unfold handleLeaveRoom
  rcases hfind : findSession s.sessions sid with _ | u
  · simp only [hfind]
    exact hne
  · simp only [hfind]
    rcases roomId with _ | rid
    · exact hne
    · rcases hga : getActive s.activeRooms rid with _ | ar
      · simp only [hga]
        exact hne
      · simp only [hga]
        have harid := (getActive_mem hga).2
        by_cases hemp : (ar.users.filter (fun e => e.userId != u.userId)).isEmpty = true
        · rw [if_pos hemp]
          intro x hx
          obtain ⟨hx1, hxid⟩ := mem_dropActive.1 hx
          rcases mem_putActive hx1 with rfl | ⟨hxold, _⟩
          · exact absurd harid hxid
          · exact hne x hxold
        · rw [if_neg hemp]
          intro x hx
          rcases mem_putActive hx with rfl | ⟨hxold, _⟩
          · intro hnil
            apply hemp
            rw [List.isEmpty_iff]
            exact hnil
          · exact hne x hxold

/-- Disconnect cleanup also keeps every registered roster non-empty. -/
theorem close_keeps_nonempty {s : ServerState}
    (hne : ∀ ar ∈ s.activeRooms, ar.users ≠ []) (sid : Nat) :
    ∀ ar ∈ (onClose s sid).1.activeRooms, ar.users ≠ [] := by
  unfold onClose handleDisconnect
  rcases hfind : findSession s.sessions sid with _ | u
  · simp only [hfind]
    exact hne
  · simp only [hfind]
    rcases hcur : u.currentRoomId with _ | rid
    · simp only [hcur]
      exact hne
    · simp only [hcur]
      exact leave_keeps_nonempty hne sid (some rid)

/-! ## Claim theorems -/

/-- C1: the claim (and spec) says a joinRoom request carrying only a
`roomId` that matches no non-deleted room is always rejected with
RoomNotFound and never resolves to some other room. The code builds
`OR: [{ id: roomId }, {}]` when `roomName` is absent, and the empty
Prisma filter matches every row, so the whole `where` degenerates to
`deletedAt: null`. At the failing input (store holding only room `r1`,
request `{ roomId: "r2" }`) the handler resolves room `r1`, replies
`roomJoined` for `r1`, and moves the session into `r1` instead of
failing. -/
theorem joinRoom_bogus_id_joins_other_room :
    alphaRoom.id ≠ "r2" ∧
    findJoinRoom c1State.db (some "r2") none = some alphaRoom ∧
    (handleJoinRoom c1State 1 (some "r2") none).2 =
      [Out.send 1 (SMsg.roomJoined "r1" "alpha" [] [("bob", "u1")])] ∧
    findSession (handleJoinRoom c1State 1 (some "r2") none).1.sessions 1 =
      some { bobSession with currentRoomId := some "r1" } := by
  decide

/-- C2 counterexample: the claim asserts the roster/session invariant in
particular after the room owner performs Delete room. In the concrete
state `c2State` (owner bob and member eve both live in room `r1`), after
`deleteRoom` the remaining sessions still carry `currentRoomId = "r1"`
while no ActiveRoom is registered under `"r1"`, so eve's session is in no
roster and the claimed invariant is false. -/
theorem deleteRoom_breaks_roster_invariant :
    stateInv c2State ∧
    findSession (handleDeleteRoom c2State 1 "r1" 5).1.sessions 2 =
      some eveInRoom ∧
    eveInRoom.currentRoomId = some "r1" ∧
    getActive (handleDeleteRoom c2State 1 "r1" 5).1.activeRooms "r1" = none ∧
    inRoster (handleDeleteRoom c2State 1 "r1" 5).1.activeRooms 2 "r1" = false ∧
    ¬ stateInv (handleDeleteRoom c2State 1 "r1" 5).1 := by
  decide

/-- C2 (amended): under well-formed registries (`stateInv`: distinct
session/connection ids, distinct user ids per session, a room registry
keyed by id, rosters consistent with sessions, no empty roster), the
invariant — a session whose `currentRoomId` is `R` is on the roster of
the ActiveRoom registered under `R`, and a session with no current room
is on no roster — holds and is preserved by join, by leave of the
session's own current room, by send, by rename and by disconnect.
Delete room violates it: remaining roster members keep a dangling
`currentRoomId` (see the counterexample), and the invariant is also not
claimed for a leave naming a room other than the session's current one. -/
theorem roster_invariant_preserved {s : ServerState} (h : stateInv s) :
    (∀ u ∈ s.sessions, ∀ rid, u.currentRoomId = some rid →
      inRoster s.activeRooms u.sid rid = true) ∧
    (∀ u ∈ s.sessions, u.currentRoomId = none →
      ∀ ar ∈ s.activeRooms, ∀ e ∈ ar.users, e.sid ≠ u.sid) ∧
    (∀ sid roomId roomName, stateInv (handleJoinRoom s sid roomId roomName).1) ∧
    (∀ sid rid, (∀ u, findSession s.sessions sid = some u →
        u.currentRoomId = none ∨ u.currentRoomId = some rid) →
      stateInv (handleLeaveRoom s sid (some rid)).1) ∧
    (∀ sid roomId ciphertext messageType imageData uploadResult persistOk
        freshId now,
      stateInv (handleSendMessage s sid roomId ciphertext messageType imageData
        uploadResult persistOk freshId now).1) ∧
    (∀ sid roomId newName, stateInv (handleRenameRoom s sid roomId newName).1) ∧
    (∀ sid, stateInv (onClose s sid).1) := by
  refine ⟨?_, ?_, ?_, ?_, ?_, ?_, ?_⟩
  · intro u hu rid hc
    have hok := h.2.2.2.2.1 u hu
    unfold sessionOk at hok
    simp only [hc] at hok
    exact hok
  · intro u hu hc ar har e he hsid
    have := (entry_sid_is_self h hu har he hsid).2
    rw [hc] at this
    exact Option.noConfusion this
  · intro sid roomId roomName
    exact join_preserves_inv h sid roomId roomName
  · intro sid rid hown
    exact leave_preserves_inv h sid rid hown
  · intro sid roomId ciphertext messageType imageData uploadResult persistOk fid now
    exact send_preserves_inv h sid roomId ciphertext messageType imageData
      uploadResult persistOk fid now
  · intro sid roomId newName
    exact rename_preserves_inv h sid roomId newName
  · intro sid
    exact close_preserves_inv h sid

/-- Witness for the amended C2 theorem at a concrete well-formed state. -/
theorem roster_invariant_preserved_witness :
    stateInv (handleJoinRoom c2State 2 (some "r1") none).1 ∧
    stateInv (onClose c2State 1).1 :=
  ⟨(roster_invariant_preserved (by decide)).2.2.1 2 (some "r1") none,
   (roster_invariant_preserved (by decide)).2.2.2.2.2.2 1⟩

/-- C3: if every registered ActiveRoom has a non-empty roster, then after
any leave (with any client-supplied `roomId` payload) and after any
disconnect cleanup this still holds: the operation that removes the last
roster member deletes the ActiveRoom from the registry in the same
operation. -/
theorem empty_rooms_evicted {s : ServerState}
    (hne : ∀ ar ∈ s.activeRooms, ar.users ≠ []) :
    (∀ sid roomId, ∀ ar ∈ (handleLeaveRoom s sid roomId).1.activeRooms,
      ar.users ≠ []) ∧
    (∀ sid, ∀ ar ∈ (onClose s sid).1.activeRooms, ar.users ≠ []) :=
  ⟨fun sid roomId => leave_keeps_nonempty hne sid roomId,
   fun sid => close_keeps_nonempty hne sid⟩

/-- Witness for C3 at a concrete state: after eve leaves `r1`, the one
registered room (the roster shrunk to bob) is non-empty. -/
theorem empty_rooms_evicted_witness :
    ({ liveAlpha with
        users := [{ sid := 1, userId := "u1", username := "bob" }] } :
      ActiveRoom).users ≠ [] :=
  (@empty_rooms_evicted c2State (by decide)).1 2 (some "r1")
    { liveAlpha with users := [{ sid := 1, userId := "u1", username := "bob" }] }
    (by decide)

/-- C4: for a sendMessage accepted from a sender whose session is in the
target room, the persist effect precedes every broadcast delivery in the
handler's trace (the trace is `persist :: broadcast`), the message is in
the durable store afterwards (so any later history fetch sees it), and if
persistence fails the handler replies with an error, changes nothing and
broadcasts nothing. -/
theorem send_persists_before_broadcast (s : ServerState) (sid : Nat)
    (roomId ciphertext : String)
    (messageType imageData uploadResult : Option String) (persistOk : Bool)
    (freshId : String) (now : Nat) {u : Session}
    (hu : findSession s.sessions sid = some u)
    (hin : u.currentRoomId = some roomId)
    (hcontent : (ciphertext == "" && optFalsy imageData) = false)
    (himg : (messageType == some "image" && !(optFalsy imageData)) = true →
      uploadResult ≠ none) :
    (persistOk = true → ∃ m : DbMessage,
      m.roomId = roomId ∧ m.ciphertext = ciphertext ∧ m.senderId = u.userId ∧
      (handleSendMessage s sid roomId ciphertext messageType imageData
        uploadResult persistOk freshId now).1.db.messages =
        s.db.messages ++ [m] ∧
      m ∈ (handleSendMessage s sid roomId ciphertext messageType imageData
        uploadResult persistOk freshId now).1.db.messages ∧
      (handleSendMessage s sid roomId ciphertext messageType imageData
        uploadResult persistOk freshId now).2 =
        Out.persist m :: broadcastToRoom s.activeRooms roomId
          (SMsg.message (liveView u.username m)) none) ∧
    (persistOk = false →
      (handleSendMessage s sid roomId ciphertext messageType imageData
        uploadResult persistOk freshId now).1 = s ∧
      (handleSendMessage s sid roomId ciphertext messageType imageData
        uploadResult persistOk freshId now).2 =
        [Out.send sid (SMsg.errorMsg Err.invalidFormat)]) := by
  unfold handleSendMessage
  simp only [hu]
  rw [if_neg (by simp [hin])]
  rw [if_neg (by simp [hcontent])]
  by_cases himgb : (messageType == some "image" && !(optFalsy imageData)) = true
  · rcases hup : uploadResult with _ | url
    · exact absurd hup (himg himgb)
    · simp only [himgb, if_true, hup]
      cases persistOk
      · refine ⟨fun hok => absurd hok (by simp), fun _ => ⟨rfl, rfl⟩⟩
      · refine ⟨fun _ => ⟨_, rfl, rfl, rfl, rfl, ?_, rfl⟩, fun hok => absurd hok (by simp)⟩
        simp
  · simp only [himgb, if_false]
    cases persistOk
    · refine ⟨fun hok => absurd hok (by simp), fun _ => ⟨rfl, rfl⟩⟩
    · refine ⟨fun _ => ⟨_, rfl, rfl, rfl, rfl, ?_, rfl⟩, fun hok => absurd hok (by simp)⟩
      simp

/-- Witness for C4: eve, live in room `r1`, sends a text message. -/
theorem send_persists_before_broadcast_witness :
    ∃ m : DbMessage, m.roomId = "r1" ∧ m.ciphertext = "hi" ∧
      m.senderId = "u2" ∧
      (handleSendMessage c2State 2 "r1" "hi" none none none true "m1" 7).1.db.messages =
        c2State.db.messages ++ [m] ∧
      m ∈ (handleSendMessage c2State 2 "r1" "hi" none none none true "m1" 7).1.db.messages ∧
      (handleSendMessage c2State 2 "r1" "hi" none none none true "m1" 7).2 =
        Out.persist m :: broadcastToRoom c2State.activeRooms "r1"
          (SMsg.message (liveView "eve" m)) none :=
  (@send_persists_before_broadcast c2State 2 "r1" "hi" none none none true
    "m1" 7 eveInRoom (by decide) (by decide) (by decide)
    (fun hh => absurd hh (by decide))).1 rfl

/-- Helper for C5: once an invite's `usedBy` is set, any redemption of its
code is rejected — as expired when past expiry, otherwise as already
used — and the state is unchanged. -/
theorem invite_rejected_when_spent (s2 : ServerState) (sid2 : Nat)
    (code : String) (now2 : Nat) {u2 : Session}
    (hu2 : findSession s2.sessions sid2 = some u2) (hcode : code ≠ "")
    {inv2 : DbInvite} (hinv2 : findInvite s2.db code = some inv2)
    {room2 : DbRoom}
    (hroom2 : s2.db.rooms.find? (fun r => r.id == inv2.roomId) = some room2)
    (hspent : inv2.usedById ≠ none) :
    ∃ e, handleJoinViaInvite s2 sid2 code now2 =
        (s2, [Out.send sid2 (SMsg.errorMsg e)]) ∧
      (e = Err.inviteExpired ∨ e = Err.inviteAlreadyUsed) := by
  unfold handleJoinViaInvite
  simp only [hu2]
  rw [if_neg (by simpa using hcode)]
  simp only [hinv2, hroom2]
  by_cases hexp2 : inv2.expiresAt < now2
  · exact ⟨Err.inviteExpired, by rw [if_pos hexp2], Or.inl rfl⟩
  · refine ⟨Err.inviteAlreadyUsed, ?_, Or.inr rfl⟩
    rw [if_neg hexp2, if_pos (by rwa [Option.isSome_iff_ne_none])]

/-- C5 counterexample: the claim says redemption exactly at the expiry
instant (`now = expiresAt`) is rejected. The code rejects only when
`now > expiresAt`, so at the boundary the otherwise-valid invite is
redeemed: the user joins and the invite row is marked used. -/
theorem invite_at_expiry_accepted :
    inviteFix.expiresAt = 100 ∧
    (handleJoinViaInvite c5State 1 "ABCD1234" 100).2 =
      [Out.send 1 (SMsg.roomJoined "r1" "alpha" [] [("bob", "u1")])] ∧
    (handleJoinViaInvite c5State 1 "ABCD1234" 100).1.db.invites =
      [{ inviteFix with usedById := some "u1", usedAt := some 100 }] ∧
    { roomId := "r1", userId := "u1" } ∈
      (handleJoinViaInvite c5State 1 "ABCD1234" 100).1.db.members := by
  decide

/-- C5 (amended): redemption strictly after expiry (`now > expiresAt`) is
rejected as expired; redemption of an invite whose `usedBy` is set is
rejected as already used; after a first successful redemption the invite
row carries the redeemer's id, and any second redemption of the same code
is rejected (as expired or already used) with no state change — never a
silent re-join. Redemption exactly at the expiry instant is NOT rejected
for expiry (see the counterexample). -/
theorem invite_redemption_rules (s : ServerState) (sid : Nat) (code : String)
    (now : Nat) {u : Session} (hu : findSession s.sessions sid = some u)
    (hcode : code ≠ "") {inv : DbInvite}
    (hinv : findInvite s.db code = some inv) {room : DbRoom}
    (hroom : s.db.rooms.find? (fun r => r.id == inv.roomId) = some room) :
    (inv.expiresAt < now →
      handleJoinViaInvite s sid code now =
        (s, [Out.send sid (SMsg.errorMsg Err.inviteExpired)])) ∧
    (¬ inv.expiresAt < now → inv.usedById ≠ none →
      handleJoinViaInvite s sid code now =
        (s, [Out.send sid (SMsg.errorMsg Err.inviteAlreadyUsed)])) ∧
    (¬ inv.expiresAt < now → inv.usedById = none → room.deletedAt = none →
      s.db.members.find?
        (fun m => m.roomId == inv.roomId && m.userId == u.userId) = none →
      findInvite (handleJoinViaInvite s sid code now).1.db code =
        some { inv with usedById := some u.userId, usedAt := some now } ∧
      (handleJoinViaInvite s sid code now).1.db.rooms = s.db.rooms ∧
      ∀ sid2 now2 u2,
        findSession (handleJoinViaInvite s sid code now).1.sessions sid2 =
          some u2 →
        ∃ e, handleJoinViaInvite (handleJoinViaInvite s sid code now).1
            sid2 code now2 =
          ((handleJoinViaInvite s sid code now).1,
            [Out.send sid2 (SMsg.errorMsg e)]) ∧
          (e = Err.inviteExpired ∨ e = Err.inviteAlreadyUsed)) := by
  refine ⟨?_, ?_, ?_⟩
  · intro hexp
    unfold handleJoinViaInvite
    simp only [hu]
    rw [if_neg (by simpa using hcode)]
    simp only [hinv, hroom]
    rw [if_pos hexp]
  · intro hexp hused
    unfold handleJoinViaInvite
    simp only [hu]
    rw [if_neg (by simpa using hcode)]
    simp only [hinv, hroom]
    rw [if_neg hexp, if_pos (by rwa [Option.isSome_iff_ne_none])]
  · intro hexp hused hdel hmem
    have hdb : (handleJoinViaInvite s sid code now).1.db =
        { s.db with
            invites := s.db.invites.map (fun i =>
              if i.inviteId == inv.inviteId then
                { i with usedById := some u.userId, usedAt := some now }
              else i)
            members := s.db.members ++
              [{ roomId := inv.roomId, userId := u.userId }] } := by
      unfold handleJoinViaInvite
      simp only [hu]
      rw [if_neg (by simpa using hcode)]
      simp only [hinv, hroom]
      rw [if_neg hexp, if_neg (by simp [hused]), if_neg (by simp [hdel]),
        if_neg (by simp [hmem])]
      rcases hc : u.currentRoomId with _ | cur
      · simp only [hc]
      · simp only [hc]
        exact leave_result_db _ _ _
    have hfind2 : findInvite (handleJoinViaInvite s sid code now).1.db code =
        some { inv with usedById := some u.userId, usedAt := some now } := by
      rw [hdb]
      unfold findInvite at hinv ⊢
      rw [find_map_pres _ _ (fun i => ?_)]
      · rw [hinv]
        simp only [Option.map_some']
        rw [if_pos (by simp)]
      · by_cases hii : i.inviteId = inv.inviteId <;> simp [hii]
    have hrooms2 : (handleJoinViaInvite s sid code now).1.db.rooms =
        s.db.rooms := by
      rw [hdb]
    refine ⟨hfind2, hrooms2, ?_⟩
    intro sid2 now2 u2 hu2
    apply invite_rejected_when_spent _ _ _ _ hu2 hcode hfind2
    · show (handleJoinViaInvite s sid code now).1.db.rooms.find? _ = some room
      rw [hrooms2]
      exact hroom
    · simp

/-- Witness for the amended C5 theorem: first redemption at the boundary
instant marks the invite used. -/
theorem invite_redemption_rules_witness :
    findInvite (handleJoinViaInvite c5State 1 "ABCD1234" 100).1.db "ABCD1234" =
      some { inviteFix with usedById := some "u1", usedAt := some 100 } :=
  ((@invite_redemption_rules c5State 1 "ABCD1234" 100 bobSession (by decide)
    (by decide) inviteFix (by decide) alphaRoom (by decide)).2.2
    (by decide) rfl rfl (by decide)).1

/-- C6: `createRoom` fails NameTaken exactly when a non-deleted room with
the requested name exists; and when the requested name is held by a
soft-deleted row, that row is renamed under the hood
(`name_deleted_<timestamp>`) and the new room is created under the
requested name (appended, with the creator's membership). The room-name
uniqueness hypothesis models the store's unique index on `name`. -/
theorem createRoom_nameTaken_iff (s : ServerState) (sid : Nat) {u : Session}
    (hu : findSession s.sessions sid = some u) (name : String)
    (displayName : Option String) (roomType : String)
    (frid fkey : String) (now : Nat) (hname : name ≠ "")
    (htype : roomType = "public" ∨ roomType = "private")
    (hnodup : (s.db.rooms.map DbRoom.name).Nodup) :
    ((∃ r ∈ s.db.rooms, r.name = name ∧ r.deletedAt = none) ↔
      handleCreateRoom s sid name displayName roomType frid fkey now =
        (s, [Out.send sid (SMsg.errorMsg Err.nameTaken)])) ∧
    (∀ r, s.db.rooms.find? (fun x => x.name == name) = some r →
      r.deletedAt ≠ none →
      (handleCreateRoom s sid name displayName roomType frid fkey now).1.db.rooms =
        (s.db.rooms.map (fun x =>
          if x.id == r.id then
            { x with name := name ++ "_deleted_" ++ toString now }
          else x)) ++
        [{ id := frid, name := name,
           displayName := optOr displayName ("#" ++ name),
           roomType := roomType, encryptedKey := fkey,
           creatorId := u.userId, deletedAt := none }]) ∧
    (s.db.rooms.find? (fun x => x.name == name) = none →
      (handleCreateRoom s sid name displayName roomType frid fkey now).1.db.rooms =
        s.db.rooms ++
        [{ id := frid, name := name,
           displayName := optOr displayName ("#" ++ name),
           roomType := roomType, encryptedKey := fkey,
           creatorId := u.userId, deletedAt := none }]) := by
  have htypeb : (roomType != "public" && roomType != "private") = false := by
    rcases htype with rfl | rfl <;> rfl
  unfold handleCreateRoom
  simp only [hu]
  rw [if_neg (by simpa using hname), if_neg (by simp [htypeb])]
  rcases hfound : s.db.rooms.find? (fun x => x.name == name) with _ | ex
  · simp only [hfound]
    have hnone := List.find?_eq_none.1 hfound
    refine ⟨?_, ?_, ?_⟩
    · refine iff_of_false ?_ ?_
      · rintro ⟨r, hr, hrname, -⟩
        exact hnone r hr (by simpa using hrname)
      · intro heq
        have := congrArg Prod.snd heq
        simp at this
    · intro r hr
      exact absurd hr (by simp)
    · intro _
      trivial
  · simp only [hfound]
    have hexmem := List.mem_of_find?_eq_some hfound
    have hexname : ex.name = name := by simpa using List.find?_some hfound
    by_cases hdel : ex.deletedAt = none
    · rw [if_pos (by simp [hdel])]
      refine ⟨iff_of_true ⟨ex, hexmem, hexname, hdel⟩ rfl, ?_, ?_⟩
      · intro r hr hrdel
        have hexr : ex = r := Option.some.inj hr
        rw [← hexr] at hrdel
        exact absurd hdel hrdel
      · intro h3
        exact Option.noConfusion h3
    · rw [if_neg (by simp [hdel])]
      refine ⟨?_, ?_, ?_⟩
      · refine iff_of_false ?_ ?_
        · rintro ⟨r, hr, hrname, hrdel⟩
          have hexr : r = ex :=
            nodup_map_inj hnodup hr hexmem (by rw [hrname, hexname])
          rw [hexr] at hrdel
          exact hdel hrdel
        · intro heq
          have := congrArg Prod.snd heq
          simp at this
      · intro r hr hrdel
        have hexr : ex = r := Option.some.inj hr
        rw [← hexr]
      · intro h3
        exact Option.noConfusion h3

/-- Witness for C6: re-creating room name `alpha`, currently held only by
a soft-deleted row, renames the deleted row and appends the new room. -/
theorem createRoom_nameTaken_iff_witness :
    (handleCreateRoom c6State 1 "alpha" none "public" "rN" "kN" 77).1.db.rooms =
      (c6State.db.rooms.map (fun x =>
        if x.id == alphaDeletedRoom.id then
          { x with name := "alpha" ++ "_deleted_" ++ toString 77 }
        else x)) ++
      [{ id := "rN", name := "alpha", displayName := optOr none ("#" ++ "alpha"),
         roomType := "public", encryptedKey := "kN",
         creatorId := "u1", deletedAt := none }] :=
  (@createRoom_nameTaken_iff c6State 1 bobSession (by decide) "alpha" none
    "public" "rN" "kN" 77 (by decide) (Or.inl rfl) (by decide)).2.1
    alphaDeletedRoom (by decide) (by decide)

/-- Every effect of `broadcastToRoom` is a delivery (never a direct send). -/
theorem broadcast_all_deliver (ars : List ActiveRoom) (rid : String)
    (m : SMsg) (excl : Option Nat) :
    ∀ o ∈ broadcastToRoom ars rid m excl, ∃ sid2, o = Out.deliver rid sid2 m := by
  unfold broadcastToRoom
  rcases hga : getActive ars rid with _ | ar
  · intro o ho
    exact absurd ho (List.not_mem_nil o)
  · intro o ho
    rcases List.mem_map.1 ho with ⟨e, _, rfl⟩
    exact ⟨e.sid, rfl⟩

/-- C7 counterexample: the claim says renaming by the creator fails
NameTaken only when a different NON-deleted room holds `newName`, so a
rename onto a name held only by a soft-deleted room should succeed. The
code's collision check (`findUnique` on `name`) ignores `deletedAt`: in
`c7State`, `beta` is held only by the soft-deleted room `r2`, and the
owner's rename of `r1` to `beta` is rejected with NameTaken. -/
theorem rename_to_deleted_name_rejected :
    c7State.db.rooms.find? (fun r => r.name == "beta") = some betaDeletedRoom ∧
    betaDeletedRoom.deletedAt = some 3 ∧
    alphaRoom.creatorId = bobSession.userId ∧
    handleRenameRoom c7State 1 "r1" "beta" =
      (c7State, [Out.send 1 (SMsg.errorMsg Err.nameTaken)]) := by
  decide

/-- C7 (amended): a rename by the room's creator fails NameTaken exactly
when a different room — deleted or not — with `newName` exists in the
store; in particular a rename onto a name held only by a soft-deleted
room is rejected, not accepted. The uniqueness hypothesis models the
store's unique index on `name`. -/
theorem renameRoom_nameTaken_iff (s : ServerState) (sid : Nat) {u : Session}
    (hu : findSession s.sessions sid = some u) (roomId newName : String)
    (hv1 : roomId ≠ "") (hv2 : newName ≠ "") {room : DbRoom}
    (hroom : s.db.rooms.find? (fun r => r.id == roomId) = some room)
    (howner : room.creatorId = u.userId)
    (hnodup : (s.db.rooms.map DbRoom.name).Nodup) :
    handleRenameRoom s sid roomId newName =
        (s, [Out.send sid (SMsg.errorMsg Err.nameTaken)]) ↔
      ∃ r ∈ s.db.rooms, r.name = newName ∧ r.id ≠ roomId := by
  unfold handleRenameRoom
  simp only [hu]
  rw [if_neg (by simp [hv1, hv2])]
  simp only [hroom]
  rw [if_neg (by simp [howner])]
  rcases hfn : s.db.rooms.find? (fun r => r.name == newName) with _ | ex
  · simp only [hfn]
    have hnone := List.find?_eq_none.1 hfn
    rw [if_neg (by simp)]
    refine iff_of_false ?_ ?_
    · intro heq
      have h2 := congrArg Prod.snd heq
      simp only at h2
      have hmem : Out.send sid (SMsg.errorMsg Err.nameTaken) ∈
          [Out.send sid (SMsg.errorMsg Err.nameTaken)] := by simp
      rw [← h2] at hmem
      rcases broadcast_all_deliver _ _ _ _ _ hmem with ⟨sid2, hd⟩
      exact Out.noConfusion hd
    · rintro ⟨r, hr, hrname, -⟩
      exact hnone r hr (by simpa using hrname)
  · simp only [hfn]
    have hexmem := List.mem_of_find?_eq_some hfn
    have hexname : ex.name = newName := by simpa using List.find?_some hfn
    by_cases hexid : ex.id = roomId
    · rw [if_neg (by simp [hexid])]
      refine iff_of_false ?_ ?_
      · intro heq
        have h2 := congrArg Prod.snd heq
        simp only at h2
        have hmem : Out.send sid (SMsg.errorMsg Err.nameTaken) ∈
            [Out.send sid (SMsg.errorMsg Err.nameTaken)] := by simp
        rw [← h2] at hmem
        rcases broadcast_all_deliver _ _ _ _ _ hmem with ⟨sid2, hd⟩
        exact Out.noConfusion hd
      · rintro ⟨r, hr, hrname, hrid⟩
        have hre : r = ex := nodup_map_inj hnodup hr hexmem (by rw [hrname, hexname])
        rw [hre] at hrid
        exact hrid hexid
    · rw [if_pos (by simp [hexid])]
      exact iff_of_true rfl ⟨ex, hexmem, hexname, hexid⟩

/-- Witness for the amended C7 theorem: the soft-deleted `beta` row blocks
the rename. -/
theorem renameRoom_nameTaken_iff_witness :
    handleRenameRoom c7State 1 "r1" "beta" =
      (c7State, [Out.send 1 (SMsg.errorMsg Err.nameTaken)]) :=
  (@renameRoom_nameTaken_iff c7State 1 bobSession (by decide) "r1" "beta"
    (by decide) (by decide) alphaRoom (by decide) rfl (by decide)).mpr
    ⟨betaDeletedRoom, by decide, rfl, by decide⟩

/-- C8 counterexample: the claim says a listed room's member count is the
live ActiveRoom roster size, falling back to 0 when the room is not
active. In `c8State` room `r1` is not active and has one durable
membership row; the handler reports `memberCount = 1` (the Prisma
`_count.members` aggregate over membership rows), not 0. -/
theorem listRooms_count_is_membership_rows :
    getActive c8State.activeRooms "r1" = none ∧
    (handleListRooms c8State 1).2 =
      [Out.send 1 (SMsg.roomsList
        [{ roomId := "r1", name := "alpha", displayName := "#alpha",
           roomType := "public", memberCount := 1, isJoined := false }] [])] := by
  decide

/-- C8 (amended): listRooms returns exactly the non-deleted public rooms
plus the non-deleted private/dm rooms holding a membership row for the
requesting identity, each formatted with `memberCount` equal to the
number of DURABLE membership rows of that room (not the live roster
size) and an `isJoined` flag reflecting the identity's own membership
row; the state is unchanged. -/
theorem listRooms_characterization (s : ServerState) (sid : Nat) {u : Session}
    (hu : findSession s.sessions sid = some u) :
    (handleListRooms s sid).1 = s ∧
    (handleListRooms s sid).2 =
      [Out.send sid (SMsg.roomsList
        ((pubRooms s.db).map (formatRoom s.db u.userId))
        ((privRooms s.db u.userId).map (formatRoom s.db u.userId)))] ∧
    (∀ ri, ri ∈ (pubRooms s.db).map (formatRoom s.db u.userId) ↔
      ∃ r ∈ s.db.rooms, r.roomType = "public" ∧ r.deletedAt = none ∧
        ri = formatRoom s.db u.userId r) ∧
    (∀ ri, ri ∈ (privRooms s.db u.userId).map (formatRoom s.db u.userId) ↔
      ∃ r ∈ s.db.rooms, (r.roomType = "private" ∨ r.roomType = "dm") ∧
        r.deletedAt = none ∧
        (∃ m ∈ s.db.members, m.roomId = r.id ∧ m.userId = u.userId) ∧
        ri = formatRoom s.db u.userId r) ∧
    (∀ r : DbRoom,
      (formatRoom s.db u.userId r).memberCount =
        (s.db.members.filter (fun m => m.roomId == r.id)).length ∧
      ((formatRoom s.db u.userId r).isJoined = true ↔
        ∃ m ∈ s.db.members, m.roomId = r.id ∧ m.userId = u.userId)) := by
  refine ⟨?_, ?_, ?_, ?_, ?_⟩
  · unfold handleListRooms
    simp only [hu]
  · unfold handleListRooms
    simp only [hu]
  · intro ri
    constructor
    · intro hri
      rcases List.mem_map.1 hri with ⟨r, hr, rfl⟩
      have hf := List.mem_filter.1 hr
      have hc := hf.2
      simp only [Bool.and_eq_true, beq_iff_eq] at hc
      exact ⟨r, hf.1, hc.1, hc.2, rfl⟩
    · rintro ⟨r, hr, h1, h2, rfl⟩
      exact List.mem_map_of_mem _ (List.mem_filter.2 ⟨hr, by simp [h1, h2]⟩)
  · intro ri
    constructor
    · intro hri
      rcases List.mem_map.1 hri with ⟨r, hr, rfl⟩
      have hf := List.mem_filter.1 hr
      have hc := hf.2
      simp only [Bool.and_eq_true, Bool.or_eq_true, beq_iff_eq] at hc
      rcases List.any_eq_true.1 hc.2 with ⟨m, hm, hmb⟩
      simp only [Bool.and_eq_true, beq_iff_eq] at hmb
      exact ⟨r, hf.1, hc.1.1, hc.1.2, ⟨m, hm, hmb.1, hmb.2⟩, rfl⟩
    · rintro ⟨r, hr, h1, h2, ⟨m, hm, hm1, hm2⟩, rfl⟩
      refine List.mem_map_of_mem _ (List.mem_filter.2 ⟨hr, ?_⟩)
      simp only [Bool.and_eq_true, Bool.or_eq_true, beq_iff_eq]
      refine ⟨⟨?_, h2⟩, List.any_eq_true.2 ⟨m, hm, by simp [hm1, hm2]⟩⟩
      rcases h1 with h1 | h1 <;> simp [h1]
  · intro r
    refine ⟨rfl, ?_⟩
    unfold formatRoom
    constructor
    · intro hj
      have hne : s.db.members.filter
          (fun m => m.roomId == r.id && m.userId == u.userId) ≠ [] := by
        intro hnil
        rw [show ((s.db.members.filter
          (fun m => m.roomId == r.id && m.userId == u.userId)).isEmpty) = true
          from List.isEmpty_iff.2 hnil] at hj
        exact Bool.noConfusion hj
      rcases List.exists_mem_of_ne_nil _ hne with ⟨m, hm⟩
      have hmf := List.mem_filter.1 hm
      have hmb := hmf.2
      simp only [Bool.and_eq_true, beq_iff_eq] at hmb
      exact ⟨m, hmf.1, hmb.1, hmb.2⟩
    · rintro ⟨m, hm, h1, h2⟩
      have hmem : m ∈ s.db.members.filter
          (fun m => m.roomId == r.id && m.userId == u.userId) :=
        List.mem_filter.2 ⟨hm, by simp [h1, h2]⟩
      rcases hq : (s.db.members.filter
          (fun m => m.roomId == r.id && m.userId == u.userId)).isEmpty
      · simp [hq]
      · rw [List.isEmpty_iff] at hq
        rw [hq] at hmem
        exact absurd hmem (List.not_mem_nil m)

/-- Witness for the amended C8 theorem: the annotation conjunct at
`c8State` (one durable member row, room inactive). -/
theorem listRooms_characterization_witness :
    (formatRoom c8State.db "u1" alphaRoom).memberCount =
      (c8State.db.members.filter (fun m => m.roomId == alphaRoom.id)).length ∧
    ((formatRoom c8State.db "u1" alphaRoom).isJoined = true ↔
      ∃ m ∈ c8State.db.members, m.roomId = alphaRoom.id ∧ m.userId = "u1") :=
  (@listRooms_characterization c8State 1 bobSession (by decide)).2.2.2.2 alphaRoom

/-- Every effect of a leave is a roster delivery; leaves never send
anything directly (in particular no errors) to the leaver. -/
theorem leave_outs_no_send (s : ServerState) (sid : Nat)
    (roomId : Option String) :
    ∀ o ∈ (handleLeaveRoom s sid roomId).2, ∀ n m2, o ≠ Out.send n m2 := by
  unfold handleLeaveRoom
  rcases hfind : findSession s.sessions sid with _ | u
  · simp only [hfind]
    intro o ho
    exact absurd ho (List.not_mem_nil o)
  · simp only [hfind]
    rcases roomId with _ | rid
    · intro o ho
      exact absurd ho (List.not_mem_nil o)
    · rcases hga : getActive s.activeRooms rid with _ | ar
      · simp only [hga]
        intro o ho
        exact absurd ho (List.not_mem_nil o)
      · simp only [hga]
        intro o ho n m2
        rcases broadcast_all_deliver _ _ _ _ o ho with ⟨sid2, rfl⟩
        exact fun hh => Out.noConfusion hh

/-- After the membership upsert, a row (rid, uid) exists. -/
theorem upsertMember_has (db : Db) (rid uid : String) :
    ∃ m ∈ (upsertMember db rid uid).members, m.roomId = rid ∧ m.userId = uid := by
  unfold upsertMember
  by_cases hany : (db.members.any
      (fun m => m.roomId == rid && m.userId == uid)) = true
  · rw [if_pos hany]
    rcases List.any_eq_true.1 hany with ⟨m, hm, hb⟩
    simp only [Bool.and_eq_true, beq_iff_eq] at hb
    exact ⟨m, hm, hb.1, hb.2⟩
  · rw [if_neg hany]
    exact ⟨{ roomId := rid, userId := uid }, by simp, rfl, rfl⟩

/-- C9: the membership access check of `handleJoinRoom` covers only rooms
whose kind is `private`. When the join request resolves to a room of kind
`dm`, the handler never replies with an error — in particular not with
AccessDenied — for any connected user, member of the DM or not; it
upserts a durable membership row for the joiner and moves the session
into the room. -/
theorem dm_join_no_access_check (s : ServerState) (sid : Nat) {u : Session}
    (hu : findSession s.sessions sid = some u)
    (roomId roomName : Option String)
    (hreq : (roomId == none && roomName == none) = false)
    {room : DbRoom} (hfindr : findJoinRoom s.db roomId roomName = some room)
    (hdm : room.roomType = "dm") :
    (∀ e, Out.send sid (SMsg.errorMsg e) ∉
      (handleJoinRoom s sid roomId roomName).2) ∧
    (∃ m ∈ (handleJoinRoom s sid roomId roomName).1.db.members,
      m.roomId = room.id ∧ m.userId = u.userId) ∧
    findSession (handleJoinRoom s sid roomId roomName).1.sessions sid =
      some { u with currentRoomId := some room.id } := by
  obtain ⟨humem, husid⟩ := findSession_mem hu
  subst husid
  unfold handleJoinRoom
  simp only [hu]
  rw [if_neg (by simp [hreq])]
  simp only [hfindr]
  rw [if_neg (by simp [hdm])]
  rcases hcur : u.currentRoomId with _ | cur
  · simp only [hcur]
    refine ⟨?_, ?_, ?_⟩
    · intro e he
      rcases List.mem_append.1 he with he1 | he2
      · rcases List.mem_append.1 he1 with he0 | he0
        · exact absurd he0 (List.not_mem_nil _)
        · have := List.mem_singleton.1 he0
          exact SMsg.noConfusion (Out.send.inj this).2
      · rcases broadcast_all_deliver _ _ _ _ _ he2 with ⟨sid2, hd⟩
        exact Out.noConfusion hd
    · exact upsertMember_has _ _ _
    · rw [findSession_setCurrentRoom_self, hu]
      rfl
  · simp only [hcur]
    refine ⟨?_, ?_, ?_⟩
    · intro e he
      rcases List.mem_append.1 he with he1 | he2
      · rcases List.mem_append.1 he1 with he0 | he0
        · exact leave_outs_no_send s u.sid (some cur) _ he0 _ _ rfl
        · have := List.mem_singleton.1 he0
          exact SMsg.noConfusion (Out.send.inj this).2
      · rcases broadcast_all_deliver _ _ _ _ _ he2 with ⟨sid2, hd⟩
        exact Out.noConfusion hd
    · exact upsertMember_has _ _ _
    · rw [findSession_setCurrentRoom_self, leave_result_sessions hu cur,
        findSession_setCurrentRoom_self, hu]
      rfl

/-- Witness for C9: a user who is not one of the two DM participants joins
the DM room by id. -/
theorem dm_join_no_access_check_witness :
    findSession (handleJoinRoom c9State 1 (some "r5") none).1.sessions 1 =
      some { bobSession with currentRoomId := some "r5" } ∧
    ∃ m ∈ (handleJoinRoom c9State 1 (some "r5") none).1.db.members,
      m.roomId = dmRoom.id ∧ m.userId = "u1" :=
  ⟨(@dm_join_no_access_check c9State 1 bobSession (by decide) (some "r5") none
    (by decide) dmRoom (by decide) rfl).2.2,
   (@dm_join_no_access_check c9State 1 bobSession (by decide) (some "r5") none
    (by decide) dmRoom (by decide) rfl).2.1⟩

/-- C10: deleting a room leaves every session's `currentRoomId` untouched
(frame), evicts the ActiveRoom and soft-deletes the row; a subsequent
sendMessage from a remaining member targeting that roomId passes the
in-room check, persists a message to the soft-deleted room, and the
broadcast is a no-op because no ActiveRoom is registered (the trace is
just the persist effect, with no deliveries). -/
theorem delete_then_send (s : ServerState) (sidO sidM : Nat) (rid : String)
    (now now2 : Nat) (ct fid : String) {uo : Session}
    (huo : findSession s.sessions sidO = some uo) (hrid : rid ≠ "")
    {room : DbRoom}
    (hroom : s.db.rooms.find? (fun r => r.id == rid) = some room)
    (howner : room.creatorId = uo.userId) {um : Session}
    (hum : findSession s.sessions sidM = some um)
    (hcur : um.currentRoomId = some rid) (hct : ct ≠ "") :
    (handleDeleteRoom s sidO rid now).1.sessions = s.sessions ∧
    getActive (handleDeleteRoom s sidO rid now).1.activeRooms rid = none ∧
    (handleDeleteRoom s sidO rid now).1.db.rooms.find?
      (fun r => r.id == rid) = some { room with deletedAt := some now } ∧
    (handleSendMessage (handleDeleteRoom s sidO rid now).1 sidM rid ct
      none none none true fid now2).1.db.messages =
      (handleDeleteRoom s sidO rid now).1.db.messages ++
        [textMsg fid rid um.userId ct now2] ∧
    (handleSendMessage (handleDeleteRoom s sidO rid now).1 sidM rid ct
      none none none true fid now2).2 =
      [Out.persist (textMsg fid rid um.userId ct now2)] := by
  have hred : handleDeleteRoom s sidO rid now =
      ({ s with
          db := { s.db with rooms := s.db.rooms.map (fun r =>
            if r.id == rid then { r with deletedAt := some now } else r) }
          activeRooms := dropActive s.activeRooms rid },
        broadcastToRoom s.activeRooms rid (SMsg.roomDeleted rid) none) := by
    unfold handleDeleteRoom
    simp only [huo]
    rw [if_neg (by simpa using hrid)]
    simp only [hroom]
    rw [if_neg (by simp [howner])]
  rw [hred]
  refine ⟨rfl, getActive_dropActive_self _ _, ?_, ?_, ?_⟩
  · show (s.db.rooms.map _).find? _ = _
    rw [find_map_pres _ _ (fun r => ?_), hroom]
    · simp only [Option.map_some']
      rw [if_pos (List.find?_some hroom)]
    · by_cases hr : r.id = rid <;> simp [hr]
  · unfold handleSendMessage
    simp only [hum]
    rw [if_neg (by simp [hcur])]
    rw [if_neg (by simp [hct, optFalsy])]
    rw [if_neg (by simp [optFalsy])]
    rfl
  · unfold handleSendMessage
    simp only [hum]
    rw [if_neg (by simp [hcur])]
    rw [if_neg (by simp [hct, optFalsy])]
    rw [if_neg (by simp [optFalsy])]
    have hb : broadcastToRoom (dropActive s.activeRooms rid) rid
        (SMsg.message (liveView um.username (textMsg fid rid um.userId ct now2)))
        none = [] := by
      unfold broadcastToRoom
      rw [getActive_dropActive_self]
    conv_rhs => rw [← hb]
    rfl

/-- Witness for C10: bob deletes `r1`; eve, still pointed at `r1`, sends a
message that is persisted with no delivery. -/
theorem delete_then_send_witness :
    (handleSendMessage (handleDeleteRoom c2State 1 "r1" 5).1 2 "r1" "hi"
      none none none true "m2" 9).2 =
      [Out.persist (textMsg "m2" "r1" "u2" "hi" 9)] :=
  (@delete_then_send c2State 1 2 "r1" 5 9 "hi" "m2" bobInRoom (by decide)
    (by decide) alphaRoom (by decide) rfl eveInRoom (by decide) rfl
    (by decide)).2.2.2.2

end RadioChat

